import Mathlib

/-!
Verification of the pottery-rib parametric mesh generator.

The development shallowly embeds the generator of `src/unnamed/part_001`:
`getShapeModifier`, `smoothCurvePoints`, `applyEdgeAngle`,
`calculateVertexPosition`, the index/vertex construction of
`createRibGeometry` (fixed resolution 60 x 40), and the volume statistic of
`updateStatistics`.  JavaScript numbers are modelled as ideal reals (the
curve smoother, which uses only field operations and floor, is modelled over
the rationals so that it stays executable).  Named locals of the JavaScript
are lifted to named Lean definitions with the same formulas.
-/

namespace PotteryRib

/-- The parameter record collected by `getGeometryParameters`.  String-valued
fields keep the exact tag values of the UI (`edgeThicknessApply` is one of
"all" / "shaping" / "asymmetric", `shape` one of "rectangular" / "oval" /
"circle" / "teardrop" / "kidney" / "asymmetric-teardrop" / "custom",
`angleType` one of "straight" / "sharp" / "bevel" / "miter" / "rounded" /
"custom-angle" / "asymmetric").  The per-edge overrides (`edgeTop`, ...,
`angleRight`) are `null` in the source outside asymmetric mode; here they are
plain fields that are simply never read outside that mode. -/
structure RibParams where
  length : ℝ
  width : ℝ
  thickness : ℝ
  edgeThickness : ℝ
  edgeThicknessApply : String
  edgeTop : ℝ
  edgeBottom : ℝ
  edgeLeft : ℝ
  edgeRight : ℝ
  shape : String
  angleType : String
  angleTop : String
  angleBottom : String
  angleLeft : String
  angleRight : String
  customAngle : ℝ
  edgeDepth : ℝ
  applyAllEdges : Bool
  longitudinalCurve : ℝ

/-- Replace only the `applyAllEdges` flag of a parameter record. -/
def setApplyAllEdges (p : RibParams) (b : Bool) : RibParams :=
  ⟨p.length, p.width, p.thickness, p.edgeThickness, p.edgeThicknessApply,
   p.edgeTop, p.edgeBottom, p.edgeLeft, p.edgeRight, p.shape, p.angleType,
   p.angleTop, p.angleBottom, p.angleLeft, p.angleRight, p.customAngle,
   p.edgeDepth, b, p.longitudinalCurve⟩

/-- `applyEdgeAngle(angleType, customAngle, thickness, angleEffect)` of the
source: the edge-profile evaluator returning the modified top-surface offset.
The switch falls through to the initial `thickness / 2` for unknown tags. -/
noncomputable def applyEdgeAngle (angleType : String) (customAngle thickness angleEffect : ℝ) : ℝ :=
  if angleType = "straight" then thickness / 2
  else if angleType = "sharp" then
    max 0.1 (thickness / 2 * (1 - angleEffect * 0.95))
  else if angleType = "bevel" then
    max 0.1 (thickness / 2 - Real.tan (30 * Real.pi / 180) * (thickness * angleEffect * 0.5))
  else if angleType = "miter" then
    max 0.1 (thickness / 2 - Real.tan (45 * Real.pi / 180) * (thickness * angleEffect * 0.5))
  else if angleType = "rounded" then
    thickness / 2 * (1 - Real.sin (angleEffect * Real.pi / 2) * 0.9)
  else if angleType = "custom-angle" then
    max 0.1 (thickness / 2 - Real.tan (customAngle * Real.pi / 180) * (thickness * angleEffect * 0.5))
  else thickness / 2

/-- `getShapeModifier(t, s, shape)` of the source: the width-scaling factor of
the predefined shapes; the default branch (rectangular and unknown tags)
returns 1. -/
noncomputable def getShapeModifier (t s : ℝ) (shape : String) : ℝ :=
  if shape = "oval" then Real.sqrt (max 0 (1 - (2 * t - 1) ^ 2)) * 0.8 + 0.2
  else if shape = "circle" then Real.sqrt (max 0 (1 - (2 * t - 1) ^ 2)) * 0.9 + 0.1
  else if shape = "teardrop" then (1 - t) * 0.7 + 0.3
  else if shape = "kidney" then 1 - |Real.sin (t * Real.pi)| * 0.4 * |s - 0.5| * 2
  else if shape = "asymmetric-teardrop" then
    ((1 - t) * 0.7 + 0.3) * (if s < 0.5 then 0.8 else 1.2)
  else 1

/-- A 2D point of a drawn custom curve, over the rationals (the smoother uses
only field operations, floor, min/max and sorting, so it is kept
executable). -/
structure CurvePoint where
  x : ℚ
  y : ℚ

/-- `smoothCurvePoints(points, smoothingFactor)` of the source: Catmull-Rom
resampling of a drawn curve into 100 points.  Inputs of fewer than 3 points
are returned unchanged.  The JavaScript `sort((a, b) => a.x - b.x)` is
modelled by a stable merge sort on the x coordinates, and the (always
in-range) array accesses by `getD` with a dummy default. -/
def smoothCurvePoints (points : List CurvePoint) (smoothingFactor : ℚ) : List CurvePoint :=
  if points.length < 3 then points
  else
    let sorted := points.mergeSort (fun a b => decide (a.x ≤ b.x))
    let resolution : ℕ := 100
    let tension : ℚ := smoothingFactor / 100
    (List.range resolution).map (fun (i : ℕ) =>
      let t : ℚ := (i : ℚ) / ((resolution : ℚ) - 1)
      let scaled : ℚ := t * ((sorted.length : ℚ) - 1)
      let index : ℤ := Rat.floor scaled
      let nextIndex : ℤ := min (index + 1) ((sorted.length : ℤ) - 1)
      let localT : ℚ := scaled - index
      let p0 := sorted.getD (max 0 (index - 1)).toNat ⟨0, 0⟩
      let p1 := sorted.getD index.toNat ⟨0, 0⟩
      let p2 := sorted.getD nextIndex.toNat ⟨0, 0⟩
      let p3 := sorted.getD (min ((sorted.length : ℤ) - 1) (nextIndex + 1)).toNat ⟨0, 0⟩
      let y : ℚ := 0.5 * (
        (2 * p1.y) +
        (-p0.y + p2.y) * localT * tension +
        (2 * p0.y - 5 * p1.y + 4 * p2.y - p3.y) * localT * localT * tension +
        (-p0.y + 3 * p1.y - 3 * p2.y + p3.y) * localT * localT * localT * tension)
      ⟨t, max 0 (min 1 y)⟩)

/-- A resampled curve point as consumed by the vertex solver (real-valued). -/
structure RealPoint where
  x : ℝ
  y : ℝ

/-- The custom-curve branch of the shape-modifier computation inside
`calculateVertexPosition`: look up the smoothed curve at index
`min(floor(t * (length - 1)), length - 1)` and blend the clamped deviation
factor toward 1 at the centerline.  An out-of-range access (JavaScript
`undefined`, the `if (point)` guard) leaves the modifier at 1. -/
noncomputable def curveShapeModifier (s t : ℝ) (curve : List RealPoint) : ℝ :=
  let pointIndex : ℤ := ⌊t * ((curve.length : ℝ) - 1)⌋
  let idx : ℤ := min pointIndex ((curve.length : ℤ) - 1)
  match (if 0 ≤ idx then curve.get? idx.toNat else none) with
  | some point =>
      let curveInfluence := s
      let centerY : ℝ := 0.5
      let curveModifier := 1 - |point.y - centerY| * 1.5
      let clampedModifier := max 0.1 (min 1 curveModifier)
      1.0 * (1 - curveInfluence) + clampedModifier * curveInfluence
  | none => 1

/-- The `targetEdgeThickness` local of `calculateVertexPosition`: the per-edge
override lookup in asymmetric mode (first-true-wins over
top/bottom/left/right nearest-edge tests), else the uniform edge
thickness. -/
noncomputable def targetEdgeThicknessAt (p : RibParams)
    (distFromTop distFromBottom distFromLeft distFromRight minDistToEdge : ℝ) : ℝ :=
  if p.edgeThicknessApply = "asymmetric" then
    if distFromTop = minDistToEdge then p.edgeTop
    else if distFromBottom = minDistToEdge then p.edgeBottom
    else if distFromLeft = minDistToEdge then p.edgeLeft
    else if distFromRight = minDistToEdge then p.edgeRight
    else p.edgeThickness
  else p.edgeThickness

/-- The `currentThickness` local of `calculateVertexPosition`: within
`edgeDepth` of the nearest edge, and when the mode applies at this edge
(always in "all"/"asymmetric", only at the shaping (top) edge in "shaping"),
interpolate from the target edge thickness at the boundary to the base
thickness at depth `edgeDepth`. -/
noncomputable def currentThicknessAt (p : RibParams)
    (distFromTop distFromBottom distFromLeft distFromRight minDistToEdge : ℝ) : ℝ :=
  if minDistToEdge ≤ p.edgeDepth ∧
     (p.edgeThicknessApply = "all" ∨ p.edgeThicknessApply = "asymmetric" ∨
      (p.edgeThicknessApply = "shaping" ∧ distFromTop = minDistToEdge)) then
    let edgeProgress := minDistToEdge / p.edgeDepth
    targetEdgeThicknessAt p distFromTop distFromBottom distFromLeft distFromRight minDistToEdge
      * (1 - edgeProgress) + p.thickness * edgeProgress
  else p.thickness

/-- The `edgeAngleType` local of `calculateVertexPosition`: per-edge profile
lookup in asymmetric mode, else the global profile tag. -/
noncomputable def edgeAngleTypeAt (p : RibParams)
    (distFromTop distFromBottom distFromLeft distFromRight minDistToEdge : ℝ) : String :=
  if p.angleType = "asymmetric" then
    if distFromTop = minDistToEdge then p.angleTop
    else if distFromBottom = minDistToEdge then p.angleBottom
    else if distFromLeft = minDistToEdge then p.angleLeft
    else if distFromRight = minDistToEdge then p.angleRight
    else p.angleType
  else p.angleType

/-- The guard of the edge-angle application in `calculateVertexPosition`:
within `edgeDepth`, apply the profile when the all-edges flag is set, the
shape is oval or custom, the point is nearest the top or bottom edge, or it
is within `edgeDepth` of the left or right edge. -/
def shouldApplyAngleAt (p : RibParams)
    (distFromTop distFromBottom distFromLeft distFromRight minDistToEdge : ℝ) : Prop :=
  p.applyAllEdges = true ∨ p.shape = "oval" ∨ p.shape = "custom" ∨
  distFromTop = minDistToEdge ∨ distFromBottom = minDistToEdge ∨
  distFromLeft ≤ p.edgeDepth ∨ distFromRight ≤ p.edgeDepth

noncomputable instance (p : RibParams) (a b c d m : ℝ) :
    Decidable (shouldApplyAngleAt p a b c d m) := by
  unfold shouldApplyAngleAt; infer_instance

/-- The final `topZ` of `calculateVertexPosition`: starts at
`currentThickness / 2 + curveOffset`; near an edge where the guard holds, the
profile evaluator output (at `angleEffect = 1 - minDist/edgeDepth`) is
blended toward the unmodified value by `angleEffect`. -/
noncomputable def topZAt (p : RibParams)
    (distFromTop distFromBottom distFromLeft distFromRight minDistToEdge curveOffset : ℝ) : ℝ :=
  let currentThickness :=
    currentThicknessAt p distFromTop distFromBottom distFromLeft distFromRight minDistToEdge
  if minDistToEdge ≤ p.edgeDepth ∧
     shouldApplyAngleAt p distFromTop distFromBottom distFromLeft distFromRight minDistToEdge then
    let edgeProgress := minDistToEdge / p.edgeDepth
    let angleEffect := 1 - edgeProgress
    let applied := applyEdgeAngle
      (edgeAngleTypeAt p distFromTop distFromBottom distFromLeft distFromRight minDistToEdge)
      p.customAngle currentThickness angleEffect + curveOffset
    applied * angleEffect + (currentThickness / 2 + curveOffset) * (1 - angleEffect)
  else currentThickness / 2 + curveOffset

/-- The result record of `calculateVertexPosition`. -/
structure VertexData where
  y : ℝ
  topZ : ℝ
  bottomZ : ℝ

/-- `calculateVertexPosition(x, s, t, params, smoothedCurve, widthSegments,
curveOffset)` of the source: the per-vertex solver.  It computes the shape
modifier (custom curve or predefined shape), the width position `y`, the
distances to the four logical edges and their minimum, and the top/bottom
surface offsets (the `x` and `widthSegments` arguments are not read by the
source body; they are kept for signature fidelity). -/
noncomputable def calculateVertexPosition (x s t : ℝ) (params : RibParams)
    (smoothedCurve : Option (List RealPoint)) (widthSegments : ℕ) (curveOffset : ℝ) :
    VertexData :=
  let shapeModifier :=
    match smoothedCurve with
    | some curve => curveShapeModifier s t curve
    | none => getShapeModifier t s params.shape
  let y := (s - 0.5) * params.width * shapeModifier
  let actualWidth := params.width * |shapeModifier|
  let actualLength := params.length
  let distFromTop := actualWidth * (1 - s)
  let distFromBottom := actualWidth * s
  let distFromLeft := actualLength * t
  let distFromRight := actualLength * (1 - t)
  let minDistToEdge := min (min (min distFromTop distFromBottom) distFromLeft) distFromRight
  let currentThickness :=
    currentThicknessAt params distFromTop distFromBottom distFromLeft distFromRight minDistToEdge
  ⟨y,
   topZAt params distFromTop distFromBottom distFromLeft distFromRight minDistToEdge curveOffset,
   -(currentThickness / 2) - curveOffset⟩

/-- Mesh resolution along the length (`const segments = 60`). -/
def segments : ℕ := 60

/-- Mesh resolution across the width (`const widthSegments = 40`). -/
def widthSegments : ℕ := 40

/-- Vertex-buffer index of the top-surface vertex of grid point `(i, j)`:
vertices are pushed in pairs (top then bottom) in row-major order, so the
top vertex of `(i, j)` is triple number `2 * (i * 41 + j)`. -/
def topIdx (i j : ℕ) : ℕ := 2 * (i * (widthSegments + 1) + j)

/-- Vertex-buffer index of the bottom-surface vertex of grid point
`(i, j)`. -/
def botIdx (i j : ℕ) : ℕ := topIdx i j + 1

/-- The four cap triangles (two top, two bottom with reversed winding) that
cell `(i, j)` contributes, in push order. -/
def capCell (i j : ℕ) : List (ℕ × ℕ × ℕ) :=
  [(topIdx i j, topIdx (i+1) j, topIdx (i+1) (j+1)),
   (topIdx i j, topIdx (i+1) (j+1), topIdx i (j+1)),
   (botIdx i j, botIdx (i+1) (j+1), botIdx (i+1) j),
   (botIdx i j, botIdx i (j+1), botIdx (i+1) (j+1))]

/-- All cap triangles of length-strip `i` (the inner `j` loop). -/
def capStrip (i : ℕ) : List (ℕ × ℕ × ℕ) :=
  (List.range widthSegments).flatMap (capCell i)

/-- The cap triangles of the mesh (the nested `i`/`j` loop of
`createRibGeometry`). -/
def capTris : List (ℕ × ℕ × ℕ) :=
  (List.range segments).flatMap capStrip

/-- The four left/right wall triangles emitted at length-strip `i`. -/
def wallLRStrip (i : ℕ) : List (ℕ × ℕ × ℕ) :=
  [(topIdx i 0, botIdx i 0, botIdx (i+1) 0),
   (topIdx i 0, botIdx (i+1) 0, topIdx (i+1) 0),
   (topIdx i widthSegments, topIdx (i+1) widthSegments, botIdx (i+1) widthSegments),
   (topIdx i widthSegments, botIdx (i+1) widthSegments, botIdx i widthSegments)]

/-- The left/right perimeter walls (the second loop of
`createRibGeometry`). -/
def wallTrisLR : List (ℕ × ℕ × ℕ) :=
  (List.range segments).flatMap wallLRStrip

/-- The two front-wall triangles emitted at width index `j` (the `i = 0`
boundary). -/
def frontCell (j : ℕ) : List (ℕ × ℕ × ℕ) :=
  [(topIdx 0 j, topIdx 0 (j+1), botIdx 0 (j+1)),
   (topIdx 0 j, botIdx 0 (j+1), botIdx 0 j)]

/-- The two back-wall triangles emitted at width index `j` (the
`i = segments` boundary). -/
def backCell (j : ℕ) : List (ℕ × ℕ × ℕ) :=
  [(topIdx segments j, botIdx segments j, botIdx segments (j+1)),
   (topIdx segments j, botIdx segments (j+1), topIdx segments (j+1))]

/-- The four front/back wall triangles emitted at width index `j`, in push
order. -/
def wallFBCell (j : ℕ) : List (ℕ × ℕ × ℕ) := frontCell j ++ backCell j

/-- The front/back perimeter walls (the third loop of
`createRibGeometry`). -/
def wallTrisFB : List (ℕ × ℕ × ℕ) :=
  (List.range widthSegments).flatMap wallFBCell

/-- The complete triangle index buffer of `createRibGeometry`, in push order.
It does not depend on the parameter record: the index topology is fixed by
the resolution constants. -/
def ribIndices : List (ℕ × ℕ × ℕ) := capTris ++ wallTrisLR ++ wallTrisFB

/-- The vertex-position buffer of `createRibGeometry`, as a function of
vertex index: vertex `k` belongs to grid point `(k / 2 / 41, k / 2 % 41)`
and is a top-surface vertex when `k` is even.  The loop computes
`t = i / segments`, `x = (t - 0.5) * length`, the longitudinal bow offset
`sin(t * pi) * thickness * (longitudinalCurve / 100) * 3`, and
`s = j / widthSegments`. -/
noncomputable def ribVertexPos (p : RibParams) (curve : Option (List RealPoint)) (k : ℕ) :
    ℝ × ℝ × ℝ :=
  let i := k / 2 / (widthSegments + 1)
  let j := k / 2 % (widthSegments + 1)
  let t : ℝ := (i : ℝ) / (segments : ℝ)
  let s : ℝ := (j : ℝ) / (widthSegments : ℝ)
  let x : ℝ := (t - 0.5) * p.length
  let curveOffset : ℝ := Real.sin (t * Real.pi) * p.thickness * (p.longitudinalCurve / 100) * 3
  let v := calculateVertexPosition x s t p curve widthSegments curveOffset
  if k % 2 = 0 then (x, v.y, v.topZ) else (x, v.y, v.bottomZ)

/-- The signed tetrahedron term of one triangle in `updateStatistics`:
`v1 . (v2 x v3)` written exactly as the source spells it out. -/
noncomputable def tetraTerm (v1 v2 v3 : ℝ × ℝ × ℝ) : ℝ :=
  v1.1 * (v2.2.1 * v3.2.2 - v2.2.2 * v3.2.1) +
  v2.1 * (v3.2.1 * v1.2.2 - v3.2.2 * v1.2.1) +
  v3.1 * (v1.2.1 * v2.2.2 - v1.2.2 * v2.2.1)

/-- The volume statistic of `updateStatistics`: accumulate
`|tetraTerm| / 6` over the triangle list, then `|total| / 1000` to report
cubic centimeters. -/
noncomputable def meshVolume (pos : ℕ → ℝ × ℝ × ℝ) (tris : List (ℕ × ℕ × ℕ)) : ℝ :=
  |tris.foldl (fun acc tri =>
    acc + |tetraTerm (pos tri.1) (pos tri.2.1) (pos tri.2.2)| / 6) 0| / 1000

/-- The volume statistic of a generated rib mesh, in cubic centimeters. -/
noncomputable def ribVolume (p : RibParams) (curve : Option (List RealPoint)) : ℝ :=
  meshVolume (ribVertexPos p curve) ribIndices

/-- Modelled from the spec: the documented UI range of `customAngleDegrees`.
The HTML input element carrying the min/max attributes of the `edge-angle`
control is not among the files under src/; the spec and the statistics code
reference cut angles of 30 and 45 degrees and treat angles below 30 degrees
as steep, so the range is modelled as 0 to 85 degrees (a cut strictly below
vertical). -/
def customAngleInRange (a : ℝ) : Prop := 0 ≤ a ∧ a ≤ 85

/-- The six direct edge-profile tags accepted by `applyEdgeAngle`. -/
def isProfileTag (p : String) : Prop :=
  p = "straight" ∨ p = "sharp" ∨ p = "bevel" ∨
  p = "miter" ∨ p = "rounded" ∨ p = "custom-angle"

/-- Whether the unordered vertex pair `{a, b}` is one of the three edges of a
triangle of the index buffer. -/
def triHasEdge (a b : ℕ) : ℕ × ℕ × ℕ → Bool
  | (p, q, r) =>
    (a == p && b == q) || (a == q && b == p) ||
    (a == q && b == r) || (a == r && b == q) ||
    (a == p && b == r) || (a == r && b == p)

/-- The number of triangles of a list that contain the undirected edge
`{a, b}`. -/
def countEdge (a b : ℕ) (l : List (ℕ × ℕ × ℕ)) : ℕ := l.countP (triHasEdge a b)

/-- The length-row of a vertex index: vertex `k` belongs to grid row
`k / 2 / 41`. -/
def rowOf (k : ℕ) : ℕ := k / 2 / (widthSegments + 1)

/-- Translate all three vertex indices of a triangle by `d`.  Moving a grid
point one row down the length axis adds `2 * 41 = 82` to its vertex
indices, so length-strip `i` of the mesh is strip `0` shifted by
`82 * i`. -/
def shiftTri (d : ℕ) : ℕ × ℕ × ℕ → ℕ × ℕ × ℕ
  | (p, q, r) => (p + d, q + d, r + d)

/-- The front wall (the `i = 0` perimeter triangles). -/
def frontWall : List (ℕ × ℕ × ℕ) := (List.range widthSegments).flatMap frontCell

/-- The back wall (the `i = segments` perimeter triangles). -/
def backWall : List (ℕ × ℕ × ℕ) := (List.range widthSegments).flatMap backCell

/-- All triangles of the mesh that touch grid rows 0 and 1 through the cap
or the left/right walls: the base strip for the cross-row edge check. -/
def stripCross : List (ℕ × ℕ × ℕ) := capStrip 0 ++ wallLRStrip 0

/-- All cap and left/right wall triangles of strips 0 and 1: every triangle
that can contain an edge lying inside grid row 1. -/
def stripMid : List (ℕ × ℕ × ℕ) :=
  capStrip 0 ++ wallLRStrip 0 ++ capStrip 1 ++ wallLRStrip 1

/-- All triangles that can contain an edge lying inside grid row 0: strip 0
plus the front wall. -/
def stripFirst : List (ℕ × ℕ × ℕ) := capStrip 0 ++ wallLRStrip 0 ++ frontWall

/-- All triangles that can contain an edge lying inside grid row 60: strip
59 plus the back wall. -/
def stripLast : List (ℕ × ℕ × ℕ) :=
  capStrip (segments - 1) ++ wallLRStrip (segments - 1) ++ backWall

/-- Pack the undirected edge `\x7bx, y\x7d` into a single number.  All vertex
indices of the mesh are below 8192, so the packing identifies exactly the
unordered pair. -/
def edgeCode (x y : ℕ) : ℕ := if x ≤ y then x * 8192 + y else y * 8192 + x

/-- The three packed edge codes of a triangle, in the edge order of
`triHasEdge`. -/
def triCodes : ℕ × ℕ × ℕ → List ℕ
  | (p, q, r) => [edgeCode p q, edgeCode q r, edgeCode p r]

/-- Whether the head of the list (if any) differs from `x`. -/
def headNe (x : ℕ) : List ℕ → Bool
  | [] => true
  | z :: _ => !(z == x)

/-- Every entry of the list belongs to exactly one adjacent equal pair; on
an ascending list this says every value occurs exactly twice. -/
def pairsOK : List ℕ → Bool
  | [] => true
  | [_] => false
  | x :: y :: rest => x == y && headNe x rest && pairsOK rest

/-- Every triangle of the list has three pairwise distinct vertex indices,
all below 8192. -/
def triOK (l : List (ℕ × ℕ × ℕ)) : Bool :=
  l.all fun t =>
    decide (t.1 < 8192) && decide (t.2.1 < 8192) && decide (t.2.2 < 8192) &&
    !(t.1 == t.2.1) && !(t.2.1 == t.2.2) && !(t.1 == t.2.2)

/-- All packed edges of a triangle list whose two endpoint rows satisfy
`rowsOk`, in ascending order. -/
def sortedEdges (rowsOk : ℕ → ℕ → Bool) (l : List (ℕ × ℕ × ℕ)) : List ℕ :=
  List.insertionSort (fun x y => x ≤ y)
    ((l.flatMap triCodes).filter
      (fun e => rowsOk (rowOf (e / 8192)) (rowOf (e % 8192))))

/-- The edge check for a triangle list: every edge whose endpoint rows
satisfy `rowsOk` occurs in exactly one adjacent pair of the ascending edge
list, and all triangles have distinct in-range vertices. -/
def edgeRowsCheck (rowsOk : ℕ → ℕ → Bool) (l : List (ℕ × ℕ × ℕ)) : Bool :=
  pairsOK (sortedEdges rowsOk l) && triOK l

/-- The parameter record of the concrete C3 scenario: a plain 100 x 60 x 6
rectangular rib with uniform edge thickness 6, straight profile, edge depth
10 and no longitudinal bow (per-edge override fields are never read in
"all" mode and are set to the source defaults). -/
noncomputable def c3params : RibParams :=
  ⟨100, 60, 6, 6, "all", 6, 6, 6, 6, "rectangular", "straight",
   "straight", "straight", "straight", "straight", 45, 10, false, 0⟩

/-- The x coordinate of grid column `i` in the C3 scenario. -/
noncomputable def c3x (i : ℕ) : ℝ := ((i : ℝ) / 60 - 0.5) * 100

/-- The y coordinate of grid row `j` in the C3 scenario. -/
noncomputable def c3y (j : ℕ) : ℝ := ((j : ℝ) / 40 - 0.5) * 60

/-- The volume contribution `|tetraTerm| / 6` of one triangle of the C3
mesh. -/
noncomputable def c3term (tri : ℕ × ℕ × ℕ) : ℝ :=
  |tetraTerm (ribVertexPos c3params none tri.1) (ribVertexPos c3params none tri.2.1)
    (ribVertexPos c3params none tri.2.2)| / 6

/-- Helper: the tangent is nonnegative on the closed first quadrant arc. -/
theorem tan_nonneg_aux {x : ℝ} (h0 : 0 ≤ x) (h1 : x ≤ Real.pi / 2) :
    0 ≤ Real.tan x := by
  rw [Real.tan_eq_sin_div_cos]
  have hpi := Real.pi_pos
  exact div_nonneg
    (Real.sin_nonneg_of_nonneg_of_le_pi h0 (by linarith))
    (Real.cos_nonneg_of_mem_Icc ⟨by linarith, h1⟩)

/-- C6: for every shape tag in {rectangular, oval, circle, teardrop, kidney,
asymmetric-teardrop} and every (t, s) in [0,1] x [0,1], the shape modifier
`getShapeModifier t s shape` is strictly greater than 0 and at most 1.2. -/
theorem c6_shape_modifier_in_range (t s : ℝ) (shape : String)
    (hshape : shape = "rectangular" ∨ shape = "oval" ∨ shape = "circle" ∨
      shape = "teardrop" ∨ shape = "kidney" ∨ shape = "asymmetric-teardrop")
    (ht0 : 0 ≤ t) (ht1 : t ≤ 1) (hs0 : 0 ≤ s) (hs1 : s ≤ 1) :
    0 < getShapeModifier t s shape ∧ getShapeModifier t s shape ≤ 1.2 := by
  have hsq : Real.sqrt (max 0 (1 - (2 * t - 1) ^ 2)) ≤ 1 :=
    Real.sqrt_le_one.mpr (max_le (by norm_num) (by nlinarith [sq_nonneg (2 * t - 1)]))
  have hsq0 : 0 ≤ Real.sqrt (max 0 (1 - (2 * t - 1) ^ 2)) := Real.sqrt_nonneg _
  have hsin : |Real.sin (t * Real.pi)| ≤ 1 :=
    abs_le.mpr ⟨Real.neg_one_le_sin _, Real.sin_le_one _⟩
  have hsin0 : 0 ≤ |Real.sin (t * Real.pi)| := abs_nonneg _
  have habs : |s - 0.5| ≤ 0.5 := abs_le.mpr ⟨by linarith, by linarith⟩
  have habs0 : 0 ≤ |s - 0.5| := abs_nonneg _
  rcases hshape with h | h | h | h | h | h <;> subst h <;> unfold getShapeModifier
  · rw [if_neg (by decide), if_neg (by decide), if_neg (by decide),
      if_neg (by decide), if_neg (by decide)]
    norm_num
  · rw [if_pos rfl]
    constructor <;> nlinarith
  · rw [if_neg (by decide), if_pos rfl]
    constructor <;> nlinarith
  · rw [if_neg (by decide), if_neg (by decide), if_pos rfl]
    constructor <;> nlinarith
  · rw [if_neg (by decide), if_neg (by decide), if_neg (by decide), if_pos rfl]
    have hprod : |Real.sin (t * Real.pi)| * |s - 0.5| ≤ 1 * 0.5 :=
      mul_le_mul hsin habs habs0 (by norm_num)
    have hprod0 : 0 ≤ |Real.sin (t * Real.pi)| * |s - 0.5| :=
      mul_nonneg hsin0 habs0
    constructor <;> nlinarith
  · rw [if_neg (by decide), if_neg (by decide), if_neg (by decide),
      if_neg (by decide), if_pos rfl]
    by_cases hc : s < 0.5
    · rw [if_pos hc]
      constructor <;> nlinarith
    · rw [if_neg hc]
      constructor <;> nlinarith

/-- C6 witness: the bounds hold at the rectangular shape and the corner
(t, s) = (0, 0). -/
theorem c6_witness :
    0 < getShapeModifier 0 0 "rectangular" ∧ getShapeModifier 0 0 "rectangular" ≤ 1.2 :=
  c6_shape_modifier_in_range 0 0 "rectangular" (Or.inl rfl)
    le_rfl zero_le_one le_rfl zero_le_one

/-- C2 counterexample: the claim quantifies over every positive thickness,
but at the positive thickness 0.1 the straight profile (at blend factor 0,
inside [0,1]) returns 0.05, which is below the claimed lower bound 0.1. -/
theorem c2_counterexample :
    0 < (0.1 : ℝ) ∧ applyEdgeAngle "straight" 45 0.1 0 < 0.1 := by
  constructor
  · norm_num
  · have h : applyEdgeAngle "straight" 45 0.1 0 = 0.1 / 2 := by
      unfold applyEdgeAngle
      rw [if_pos rfl]
    rw [h]; norm_num

/-- C2 (amended): for every profile type among the six direct tags, every
thickness in the documented UI range 3 to 12 mm, every custom angle in the
modelled documented range, and every blend factor in [0,1], the evaluator
output lies between 0.1 and thickness / 2. -/
theorem c2_profile_bounds (profile : String) (customAngle thickness blend : ℝ)
    (hprofile : isProfileTag profile)
    (hth1 : 3 ≤ thickness) (hth2 : thickness ≤ 12)
    (hca : customAngleInRange customAngle)
    (hb1 : 0 ≤ blend) (hb2 : blend ≤ 1) :
    0.1 ≤ applyEdgeAngle profile customAngle thickness blend ∧
    applyEdgeAngle profile customAngle thickness blend ≤ thickness / 2 := by
  obtain ⟨hca1, hca2⟩ := hca
  have hpi := Real.pi_pos
  have hfloor : (0.1 : ℝ) ≤ thickness / 2 := by linarith
  rcases hprofile with h | h | h | h | h | h <;> subst h <;> unfold applyEdgeAngle
  · rw [if_pos rfl]
    exact ⟨hfloor, le_rfl⟩
  · rw [if_neg (by decide), if_pos rfl]
    refine ⟨le_max_left _ _, max_le hfloor ?_⟩
    nlinarith
  · rw [if_neg (by decide), if_neg (by decide), if_pos rfl]
    have htan : 0 ≤ Real.tan (30 * Real.pi / 180) :=
      tan_nonneg_aux (by linarith) (by linarith)
    have hred : 0 ≤ Real.tan (30 * Real.pi / 180) * (thickness * blend * 0.5) :=
      mul_nonneg htan (by nlinarith)
    exact ⟨le_max_left _ _, max_le hfloor (by linarith)⟩
  · rw [if_neg (by decide), if_neg (by decide), if_neg (by decide), if_pos rfl]
    have htan : 0 ≤ Real.tan (45 * Real.pi / 180) :=
      tan_nonneg_aux (by linarith) (by linarith)
    have hred : 0 ≤ Real.tan (45 * Real.pi / 180) * (thickness * blend * 0.5) :=
      mul_nonneg htan (by nlinarith)
    exact ⟨le_max_left _ _, max_le hfloor (by linarith)⟩
  · rw [if_neg (by decide), if_neg (by decide), if_neg (by decide),
      if_neg (by decide), if_pos rfl]
    have hs1 : Real.sin (blend * Real.pi / 2) ≤ 1 := Real.sin_le_one _
    have hs0 : 0 ≤ Real.sin (blend * Real.pi / 2) :=
      Real.sin_nonneg_of_nonneg_of_le_pi (by nlinarith) (by nlinarith)
    constructor <;> nlinarith
  · rw [if_neg (by decide), if_neg (by decide), if_neg (by decide),
      if_neg (by decide), if_neg (by decide), if_pos rfl]
    have harg0 : 0 ≤ customAngle * Real.pi / 180 := by positivity
    have harg1 : customAngle * Real.pi / 180 ≤ Real.pi / 2 := by nlinarith
    have htan : 0 ≤ Real.tan (customAngle * Real.pi / 180) :=
      tan_nonneg_aux harg0 harg1
    have hred : 0 ≤ Real.tan (customAngle * Real.pi / 180) * (thickness * blend * 0.5) :=
      mul_nonneg htan (by nlinarith)
    exact ⟨le_max_left _ _, max_le hfloor (by linarith)⟩

/-- C2 witness: the amended bounds hold for the straight profile at
thickness 3, custom angle 0 and blend factor 0. -/
theorem c2_witness :
    0.1 ≤ applyEdgeAngle "straight" 0 3 0 ∧
    applyEdgeAngle "straight" 0 3 0 ≤ 3 / 2 :=
  c2_profile_bounds "straight" 0 3 0 (Or.inl rfl) le_rfl (by norm_num)
    ⟨le_rfl, by norm_num⟩ le_rfl zero_le_one

/-- C10 counterexample: at thickness 3 mm (inside the documented range 3 to
12 mm) the sharp profile at blend factor 1 returns the floor value 0.1,
which exceeds thickness / 2 * 0.05 = 0.075. -/
theorem c10_counterexample :
    3 ≤ (3 : ℝ) ∧ (3 : ℝ) ≤ 12 ∧
    ¬ applyEdgeAngle "sharp" 45 3 1 ≤ 3 / 2 * 0.05 := by
  refine ⟨le_rfl, by norm_num, ?_⟩
  have h : applyEdgeAngle "sharp" 45 3 1 = 0.1 := by
    unfold applyEdgeAngle
    rw [if_neg (by decide), if_pos rfl, max_eq_left (by norm_num)]
  rw [h]; norm_num

/-- C10 (amended): for every thickness in the documented range, the sharp
profile at blend factor 1 yields a top offset of at most the larger of the
0.1 mm floor and thickness / 2 * 0.05. -/
theorem c10_sharp_full_blend_bound (thickness customAngle : ℝ)
    (h1 : 3 ≤ thickness) (h2 : thickness ≤ 12) :
    applyEdgeAngle "sharp" customAngle thickness 1 ≤ max 0.1 (thickness / 2 * 0.05) := by
  unfold applyEdgeAngle
  rw [if_neg (by decide), if_pos rfl]
  have h : thickness / 2 * (1 - 1 * 0.95) = thickness / 2 * 0.05 := by ring
  rw [h]

/-- C10 witness: the amended bound holds at thickness 3 and custom angle
45. -/
theorem c10_witness :
    applyEdgeAngle "sharp" 45 3 1 ≤ max 0.1 ((3 : ℝ) / 2 * 0.05) :=
  c10_sharp_full_blend_bound 3 45 le_rfl (by norm_num)

/-- C7: for every input list of at least 3 points and every smoothing
strength, the curve smoother returns exactly 100 points; the x coordinate of
sample i equals i / 99 (hence the x values are evenly spaced and
monotonically non-decreasing), and every y coordinate lies in [0, 1] —
regardless of the order of the input points. -/
theorem c7_smoother_contract (points : List CurvePoint) (strength : ℚ)
    (h3 : 3 ≤ points.length) :
    (smoothCurvePoints points strength).length = 100 ∧
    ∀ i, i < 100 →
      ((smoothCurvePoints points strength).getD i ⟨0, 0⟩).x = (i : ℚ) / 99 ∧
      0 ≤ ((smoothCurvePoints points strength).getD i ⟨0, 0⟩).y ∧
      ((smoothCurvePoints points strength).getD i ⟨0, 0⟩).y ≤ 1 := by
  have hne : ¬ points.length < 3 := by omega
  unfold smoothCurvePoints
  rw [if_neg hne]
  dsimp only
  refine ⟨by simp, ?_⟩
  intro i hi
  rw [List.getD_eq_getElem _ _ (by simpa using hi), List.getElem_map,
    List.getElem_range]
  dsimp only
  refine ⟨by norm_num, le_max_left _ _, max_le (by norm_num) (min_le_left _ _)⟩

/-- C7 witness: the contract holds for a concrete three-point input at
strength 50. -/
theorem c7_witness :
    (smoothCurvePoints [⟨0, 0⟩, ⟨1/2, 1⟩, ⟨1, 0⟩] 50).length = 100 ∧
    ∀ i, i < 100 →
      ((smoothCurvePoints [⟨0, 0⟩, ⟨1/2, 1⟩, ⟨1, 0⟩] 50).getD i ⟨0, 0⟩).x = (i : ℚ) / 99 ∧
      0 ≤ ((smoothCurvePoints [⟨0, 0⟩, ⟨1/2, 1⟩, ⟨1, 0⟩] 50).getD i ⟨0, 0⟩).y ∧
      ((smoothCurvePoints [⟨0, 0⟩, ⟨1/2, 1⟩, ⟨1, 0⟩] 50).getD i ⟨0, 0⟩).y ≤ 1 :=
  c7_smoother_contract [⟨0, 0⟩, ⟨1/2, 1⟩, ⟨1, 0⟩] 50 (by simp)

/-- C8: for every input list of fewer than 3 points and every smoothing
strength, the curve smoother returns the input unchanged. -/
theorem c8_sparse_input_unchanged (points : List CurvePoint) (strength : ℚ)
    (h : points.length < 3) : smoothCurvePoints points strength = points := by
  unfold smoothCurvePoints
  rw [if_pos h]

/-- C8 witness: a two-point list is returned unchanged at strength 75. -/
theorem c8_witness :
    smoothCurvePoints [⟨0, 0⟩, ⟨1, 1⟩] 75 = [⟨0, 0⟩, ⟨1, 1⟩] :=
  c8_sparse_input_unchanged [⟨0, 0⟩, ⟨1, 1⟩] 75 (by simp)

/-- Helper: the minimum of the four edge distances is attained by one of
them. -/
theorem minDist_attained (dT dB dL dR : ℝ) :
    min (min (min dT dB) dL) dR = dT ∨ min (min (min dT dB) dL) dR = dB ∨
    min (min (min dT dB) dL) dR = dL ∨ min (min (min dT dB) dL) dR = dR := by
  rcases min_cases (min (min dT dB) dL) dR with ⟨h1, _⟩ | ⟨h1, _⟩
  · rcases min_cases (min dT dB) dL with ⟨h2, _⟩ | ⟨h2, _⟩
    · rcases min_cases dT dB with ⟨h3, _⟩ | ⟨h3, _⟩
      · exact Or.inl (by rw [h1, h2, h3])
      · exact Or.inr (Or.inl (by rw [h1, h2, h3]))
    · exact Or.inr (Or.inr (Or.inl (by rw [h1, h2])))
  · exact Or.inr (Or.inr (Or.inr h1))

/-- Helper: whenever the minimum edge distance is within the edge depth, the
edge-angle guard already holds without the all-edges flag: the nearest edge
is the top, the bottom, or a left/right edge that is itself within the
depth. -/
theorem shouldApplyAngleAt_of_depth (p : RibParams) (dT dB dL dR : ℝ)
    (hdepth : min (min (min dT dB) dL) dR ≤ p.edgeDepth) :
    shouldApplyAngleAt p dT dB dL dR (min (min (min dT dB) dL) dR) := by
  unfold shouldApplyAngleAt
  rcases minDist_attained dT dB dL dR with h | h | h | h
  · exact Or.inr (Or.inr (Or.inr (Or.inl h.symm)))
  · exact Or.inr (Or.inr (Or.inr (Or.inr (Or.inl h.symm))))
  · exact Or.inr (Or.inr (Or.inr (Or.inr (Or.inr (Or.inl (h ▸ hdepth))))))
  · exact Or.inr (Or.inr (Or.inr (Or.inr (Or.inr (Or.inr (h ▸ hdepth))))))

/-- Setting the all-edges flag leaves the width unchanged. -/
theorem setApplyAllEdges_width (p : RibParams) (b : Bool) :
    (setApplyAllEdges p b).width = p.width := rfl

/-- Setting the all-edges flag leaves the length unchanged. -/
theorem setApplyAllEdges_length (p : RibParams) (b : Bool) :
    (setApplyAllEdges p b).length = p.length := rfl

/-- Setting the all-edges flag leaves the shape tag unchanged. -/
theorem setApplyAllEdges_shape (p : RibParams) (b : Bool) :
    (setApplyAllEdges p b).shape = p.shape := rfl

/-- Setting the all-edges flag leaves the edge depth unchanged. -/
theorem setApplyAllEdges_edgeDepth (p : RibParams) (b : Bool) :
    (setApplyAllEdges p b).edgeDepth = p.edgeDepth := rfl

/-- Setting the all-edges flag leaves the custom angle unchanged. -/
theorem setApplyAllEdges_customAngle (p : RibParams) (b : Bool) :
    (setApplyAllEdges p b).customAngle = p.customAngle := rfl

/-- The current-thickness computation does not read the all-edges flag. -/
theorem currentThicknessAt_setFlag (p : RibParams) (b : Bool) (dT dB dL dR m : ℝ) :
    currentThicknessAt (setApplyAllEdges p b) dT dB dL dR m =
      currentThicknessAt p dT dB dL dR m := rfl

/-- The per-edge profile lookup does not read the all-edges flag. -/
theorem edgeAngleTypeAt_setFlag (p : RibParams) (b : Bool) (dT dB dL dR m : ℝ) :
    edgeAngleTypeAt (setApplyAllEdges p b) dT dB dL dR m =
      edgeAngleTypeAt p dT dB dL dR m := rfl

/-- Helper for C5: the top-surface computation is independent of the
all-edges flag once the distances form an actual minimum chain. -/
theorem topZAt_setFlag (p : RibParams) (b1 b2 : Bool) (dT dB dL dR off : ℝ) :
    topZAt (setApplyAllEdges p b1) dT dB dL dR (min (min (min dT dB) dL) dR) off =
      topZAt (setApplyAllEdges p b2) dT dB dL dR (min (min (min dT dB) dL) dR) off := by
  have key : ∀ b : Bool, min (min (min dT dB) dL) dR ≤ p.edgeDepth →
      shouldApplyAngleAt (setApplyAllEdges p b) dT dB dL dR
        (min (min (min dT dB) dL) dR) := fun b h =>
    shouldApplyAngleAt_of_depth (setApplyAllEdges p b) dT dB dL dR h
  unfold topZAt
  simp only [currentThicknessAt_setFlag, edgeAngleTypeAt_setFlag,
    setApplyAllEdges_edgeDepth, setApplyAllEdges_customAngle]
  by_cases hd : min (min (min dT dB) dL) dR ≤ p.edgeDepth
  · rw [if_pos ⟨hd, key b1 hd⟩, if_pos ⟨hd, key b2 hd⟩]
  · rw [if_neg fun hc => hd hc.1, if_neg fun hc => hd hc.1]

/-- C5: the per-vertex solver output is independent of the `applyAllEdges`
flag: for parameter records that differ only in that flag (and any optional
smoothed curve and any inputs), `calculateVertexPosition` returns identical
results, because whenever the minimum edge distance is within `edgeDepth`
the guard disjunction already covers all four cases of which distance
attains the minimum. -/
theorem c5_apply_all_edges_independent (p : RibParams) (b1 b2 : Bool)
    (x s t : ℝ) (curve : Option (List RealPoint)) (wseg : ℕ) (off : ℝ) :
    calculateVertexPosition x s t (setApplyAllEdges p b1) curve wseg off =
      calculateVertexPosition x s t (setApplyAllEdges p b2) curve wseg off := by
  unfold calculateVertexPosition
  dsimp only
  simp only [setApplyAllEdges_width, setApplyAllEdges_shape, setApplyAllEdges_length,
    currentThicknessAt_setFlag]
  congr 1
  exact topZAt_setFlag p b1 b2 _ _ _ _ off

/-- Helper: the profile evaluator output is strictly positive for positive
thickness, for every profile tag, angle and blend factor. -/
theorem applyEdgeAngle_pos (ty : String) (ca th b : ℝ) (hth : 0 < th) :
    0 < applyEdgeAngle ty ca th b := by
  have hfloor : (0 : ℝ) < 0.1 := by norm_num
  unfold applyEdgeAngle
  split_ifs
  · linarith
  · exact lt_of_lt_of_le hfloor (le_max_left _ _)
  · exact lt_of_lt_of_le hfloor (le_max_left _ _)
  · exact lt_of_lt_of_le hfloor (le_max_left _ _)
  · have hs := Real.sin_le_one (b * Real.pi / 2)
    nlinarith
  · exact lt_of_lt_of_le hfloor (le_max_left _ _)
  · linarith

/-- Helper: a convex combination of two positive reals is positive. -/
theorem convex_combo_pos {a b e : ℝ} (ha : 0 < a) (hb : 0 < b)
    (he0 : 0 ≤ e) (he1 : e ≤ 1) : 0 < a * (1 - e) + b * e := by
  rcases le_total a b with h | h
  · nlinarith [mul_nonneg (sub_nonneg.mpr h) he0]
  · nlinarith [mul_nonneg (sub_nonneg.mpr h) (sub_nonneg.mpr he1)]

/-- Helper: the interpolated thickness is positive whenever the base and all
applicable target edge thicknesses are. -/
theorem currentThicknessAt_pos (p : RibParams) (dT dB dL dR m : ℝ)
    (hth : 0 < p.thickness) (het : 0 < p.edgeThickness)
    (hTop : p.edgeThicknessApply = "asymmetric" → 0 < p.edgeTop)
    (hBot : p.edgeThicknessApply = "asymmetric" → 0 < p.edgeBottom)
    (hLeft : p.edgeThicknessApply = "asymmetric" → 0 < p.edgeLeft)
    (hRight : p.edgeThicknessApply = "asymmetric" → 0 < p.edgeRight)
    (hm0 : 0 ≤ m) (hd : 0 < p.edgeDepth) :
    0 < currentThicknessAt p dT dB dL dR m := by
  have htarget : 0 < targetEdgeThicknessAt p dT dB dL dR m := by
    unfold targetEdgeThicknessAt
    split_ifs with h1 h2 h3 h4 h5
    · exact hTop h1
    · exact hBot h1
    · exact hLeft h1
    · exact hRight h1
    · exact het
    · exact het
  unfold currentThicknessAt
  split_ifs with h
  · exact convex_combo_pos htarget hth (div_nonneg hm0 hd.le)
      ((div_le_one hd).mpr h.1)
  · exact hth

/-- Helper: the top surface stays strictly above the bottom surface for a
positive interpolated thickness and a nonnegative bow offset. -/
theorem topZAt_gt_bottom (p : RibParams) (dT dB dL dR m off : ℝ)
    (hm0 : 0 ≤ m) (hoff : 0 ≤ off) (hd : 0 < p.edgeDepth)
    (hcur : 0 < currentThicknessAt p dT dB dL dR m) :
    -(currentThicknessAt p dT dB dL dR m / 2) - off <
      topZAt p dT dB dL dR m off := by
  unfold topZAt
  by_cases hcond : m ≤ p.edgeDepth ∧ shouldApplyAngleAt p dT dB dL dR m
  · rw [if_pos hcond]
    have he0 : 0 ≤ m / p.edgeDepth := div_nonneg hm0 hd.le
    have he1 : m / p.edgeDepth ≤ 1 := (div_le_one hd).mpr hcond.1
    have hP := applyEdgeAngle_pos (edgeAngleTypeAt p dT dB dL dR m) p.customAngle
      (currentThicknessAt p dT dB dL dR m) (1 - m / p.edgeDepth) hcur
    nlinarith [mul_nonneg hP.le (by linarith : (0 : ℝ) ≤ 1 - m / p.edgeDepth),
      mul_nonneg hcur.le he0]
  · rw [if_neg hcond]
    linarith

/-- C4: for every parameter record with positive dimensions, positive base
and edge thicknesses (and positive per-edge overrides in asymmetric mode),
positive edge depth and nonnegative longitudinal curve percent, and every
grid point (s, t) in [0,1] x [0,1] (with the caller-computed x position and
bow offset), the vertex solver returns a top z strictly greater than the
bottom z. -/
theorem c4_top_above_bottom (p : RibParams) (curve : Option (List RealPoint))
    (s t : ℝ) (hs0 : 0 ≤ s) (hs1 : s ≤ 1) (ht0 : 0 ≤ t) (ht1 : t ≤ 1)
    (hw : 0 < p.width) (hl : 0 < p.length) (hth : 0 < p.thickness)
    (het : 0 < p.edgeThickness)
    (hTop : p.edgeThicknessApply = "asymmetric" → 0 < p.edgeTop)
    (hBot : p.edgeThicknessApply = "asymmetric" → 0 < p.edgeBottom)
    (hLeft : p.edgeThicknessApply = "asymmetric" → 0 < p.edgeLeft)
    (hRight : p.edgeThicknessApply = "asymmetric" → 0 < p.edgeRight)
    (hd : 0 < p.edgeDepth) (hc : 0 ≤ p.longitudinalCurve) :
    (calculateVertexPosition ((t - 0.5) * p.length) s t p curve widthSegments
      (Real.sin (t * Real.pi) * p.thickness * (p.longitudinalCurve / 100) * 3)).bottomZ <
    (calculateVertexPosition ((t - 0.5) * p.length) s t p curve widthSegments
      (Real.sin (t * Real.pi) * p.thickness * (p.longitudinalCurve / 100) * 3)).topZ := by
  have hpi := Real.pi_pos
  have hsin : 0 ≤ Real.sin (t * Real.pi) :=
    Real.sin_nonneg_of_nonneg_of_le_pi (by nlinarith) (by nlinarith)
  have hoff : 0 ≤ Real.sin (t * Real.pi) * p.thickness * (p.longitudinalCurve / 100) * 3 := by
    have h1 : 0 ≤ p.longitudinalCurve / 100 := by linarith
    have h2 : 0 ≤ Real.sin (t * Real.pi) * p.thickness := mul_nonneg hsin hth.le
    nlinarith
  unfold calculateVertexPosition
  dsimp only
  apply topZAt_gt_bottom
  · refine le_min (le_min (le_min ?_ ?_) ?_) ?_
    · exact mul_nonneg (mul_nonneg hw.le (abs_nonneg _)) (by linarith)
    · exact mul_nonneg (mul_nonneg hw.le (abs_nonneg _)) hs0
    · exact mul_nonneg hl.le ht0
    · exact mul_nonneg hl.le (by linarith)
  · exact hoff
  · exact hd
  · exact currentThicknessAt_pos p _ _ _ _ _ hth het hTop hBot hLeft hRight
      (le_min (le_min (le_min
        (mul_nonneg (mul_nonneg hw.le (abs_nonneg _)) (by linarith))
        (mul_nonneg (mul_nonneg hw.le (abs_nonneg _)) hs0))
        (mul_nonneg hl.le ht0))
        (mul_nonneg hl.le (by linarith))) hd

/-- C4 witness: the top surface is strictly above the bottom surface at the
C3 parameter record and grid point (s, t) = (0, 0). -/
theorem c4_witness :
    (calculateVertexPosition ((0 - 0.5) * c3params.length) 0 0 c3params none widthSegments
      (Real.sin (0 * Real.pi) * c3params.thickness * (c3params.longitudinalCurve / 100) * 3)).bottomZ <
    (calculateVertexPosition ((0 - 0.5) * c3params.length) 0 0 c3params none widthSegments
      (Real.sin (0 * Real.pi) * c3params.thickness * (c3params.longitudinalCurve / 100) * 3)).topZ :=
  c4_top_above_bottom c3params none 0 0 le_rfl zero_le_one le_rfl zero_le_one
    (by norm_num [c3params]) (by norm_num [c3params]) (by norm_num [c3params])
    (by norm_num [c3params])
    (fun h => absurd h (by simp [c3params]))
    (fun h => absurd h (by simp [c3params]))
    (fun h => absurd h (by simp [c3params]))
    (fun h => absurd h (by simp [c3params]))
    (by norm_num [c3params]) (by norm_num [c3params])

/-- Helper: the C3 shape tag hits the default branch of the shape
modifier. -/
theorem getShapeModifier_rect (t s : ℝ) : getShapeModifier t s "rectangular" = 1 := by
  unfold getShapeModifier
  rw [if_neg (by decide), if_neg (by decide), if_neg (by decide),
    if_neg (by decide), if_neg (by decide)]

/-- Helper: in the C3 scenario the target edge thickness is 6 regardless of
position. -/
theorem c3_target (dT dB dL dR m : ℝ) :
    targetEdgeThicknessAt c3params dT dB dL dR m = 6 := by
  unfold targetEdgeThicknessAt
  rw [if_neg (by decide)]
  rfl

/-- Helper: in the C3 scenario the interpolated thickness is 6 everywhere
(edge and base thickness agree, so the interpolation is constant). -/
theorem c3_currentThickness (dT dB dL dR m : ℝ) :
    currentThicknessAt c3params dT dB dL dR m = 6 := by
  have hth : c3params.thickness = (6 : ℝ) := rfl
  unfold currentThicknessAt
  split_ifs with h
  · rw [c3_target, hth]
    ring
  · exact hth

/-- Helper: the C3 per-edge angle lookup always yields the straight
profile. -/
theorem c3_edgeAngleType (dT dB dL dR m : ℝ) :
    edgeAngleTypeAt c3params dT dB dL dR m = "straight" := by
  unfold edgeAngleTypeAt
  rw [if_neg (by decide)]
  rfl

/-- Helper: the straight profile is a no-op. -/
theorem applyEdgeAngle_straight (ca th ae : ℝ) :
    applyEdgeAngle "straight" ca th ae = th / 2 := by
  unfold applyEdgeAngle
  rw [if_pos rfl]

/-- Helper: in the C3 scenario the top surface sits at 3 + curveOffset at
every position (the straight profile and its blend are the identity). -/
theorem c3_topZ (dT dB dL dR m off : ℝ) :
    topZAt c3params dT dB dL dR m off = 3 + off := by
  unfold topZAt
  simp only [c3_currentThickness, c3_edgeAngleType, applyEdgeAngle_straight]
  split_ifs with h
  · ring
  · norm_num

/-- Helper: the full C3 vertex record: y spans the width, the surfaces sit
at z = 3 + curveOffset and z = -3 - curveOffset. -/
theorem c3_vertex (x s t : ℝ) (wseg : ℕ) (off : ℝ) :
    calculateVertexPosition x s t c3params none wseg off =
      ⟨(s - 0.5) * 60, 3 + off, -3 - off⟩ := by
  unfold calculateVertexPosition
  dsimp only
  have hshape : c3params.shape = "rectangular" := rfl
  have hwidth : c3params.width = (60 : ℝ) := rfl
  simp only [hshape, hwidth, getShapeModifier_rect, c3_currentThickness, c3_topZ]
  norm_num

/-- Helper: recover the row index from a top-vertex index. -/
theorem topIdx_decode_i (i j : ℕ) (hj : j ≤ 40) :
    topIdx i j / 2 / (widthSegments + 1) = i := by
  unfold topIdx widthSegments
  omega

/-- Helper: recover the column index from a top-vertex index. -/
theorem topIdx_decode_j (i j : ℕ) (hj : j ≤ 40) :
    topIdx i j / 2 % (widthSegments + 1) = j := by
  unfold topIdx widthSegments
  omega

/-- Helper: top-vertex indices are even. -/
theorem topIdx_parity (i j : ℕ) : topIdx i j % 2 = 0 := by
  unfold topIdx
  omega

/-- Helper: recover the row index from a bottom-vertex index. -/
theorem botIdx_decode_i (i j : ℕ) (hj : j ≤ 40) :
    botIdx i j / 2 / (widthSegments + 1) = i := by
  unfold botIdx topIdx widthSegments
  omega

/-- Helper: recover the column index from a bottom-vertex index. -/
theorem botIdx_decode_j (i j : ℕ) (hj : j ≤ 40) :
    botIdx i j / 2 % (widthSegments + 1) = j := by
  unfold botIdx topIdx widthSegments
  omega

/-- Helper: bottom-vertex indices are odd. -/
theorem botIdx_parity (i j : ℕ) : botIdx i j % 2 = 1 := by
  unfold botIdx topIdx
  omega

/-- Helper: the C3 bow offset vanishes (curve percent 0). -/
theorem c3_offset_zero (u : ℝ) :
    Real.sin (u * Real.pi) * c3params.thickness *
      (c3params.longitudinalCurve / 100) * 3 = 0 := by
  have hc : c3params.longitudinalCurve = (0 : ℝ) := rfl
  rw [hc]
  ring

/-- Helper: the C3 position of the top vertex of grid point (i, j). -/
theorem c3_pos_top (i j : ℕ) (hj : j ≤ 40) :
    ribVertexPos c3params none (topIdx i j) = (c3x i, c3y j, 3) := by
  unfold ribVertexPos
  simp only [topIdx_decode_i i j hj, topIdx_decode_j i j hj, topIdx_parity i j]
  rw [if_pos trivial, c3_offset_zero, c3_vertex]
  have hlen : c3params.length = (100 : ℝ) := rfl
  unfold c3x c3y segments widthSegments
  rw [hlen]
  norm_num

/-- Helper: the C3 position of the bottom vertex of grid point (i, j). -/
theorem c3_pos_bot (i j : ℕ) (hj : j ≤ 40) :
    ribVertexPos c3params none (botIdx i j) = (c3x i, c3y j, -3) := by
  unfold ribVertexPos
  simp only [botIdx_decode_i i j hj, botIdx_decode_j i j hj, botIdx_parity i j]
  rw [if_neg (by decide), c3_offset_zero, c3_vertex]
  have hlen : c3params.length = (100 : ℝ) := rfl
  unfold c3x c3y segments widthSegments
  rw [hlen]
  norm_num

/-- Helper: `c3term` on an explicit triangle. -/
theorem c3term_mk (a b c : ℕ) :
    c3term (a, b, c) =
      |tetraTerm (ribVertexPos c3params none a) (ribVertexPos c3params none b)
        (ribVertexPos c3params none c)| / 6 := rfl

/-- Helper: the accumulating fold of the volume statistic is the sum of the
per-triangle contributions. -/
theorem foldl_add_eq_sum (g : ℕ × ℕ × ℕ → ℝ) (l : List (ℕ × ℕ × ℕ)) (acc : ℝ) :
    l.foldl (fun a tri => a + g tri) acc = acc + (l.map g).sum := by
  induction l generalizing acc with
  | nil => simp
  | cons t l ih =>
    rw [List.foldl_cons, ih, List.map_cons, List.sum_cons]
    ring

/-- Helper: summing over a flatMap is the sum of the inner sums. -/
theorem sum_map_flatMap {α : Type} (g : α → List (ℕ × ℕ × ℕ)) (f : ℕ × ℕ × ℕ → ℝ)
    (l : List α) :
    ((l.flatMap g).map f).sum = (l.map (fun a => ((g a).map f).sum)).sum := by
  induction l with
  | nil => simp
  | cons a l ih =>
    rw [List.flatMap_cons, List.map_append, List.sum_append, ih,
      List.map_cons, List.sum_cons]

/-- Helper: a sum of pointwise-constant values. -/
theorem sum_map_const_of {α : Type} (l : List α) (f : α → ℝ) (c : ℝ)
    (h : ∀ a ∈ l, f a = c) : (l.map f).sum = (l.length : ℝ) * c := by
  induction l with
  | nil => simp
  | cons a l ih =>
    rw [List.map_cons, List.sum_cons, h a (List.mem_cons_self a l),
      ih (fun x hx => h x (List.mem_cons_of_mem a hx)), List.length_cons]
    push_cast
    ring

/-- Helper: each cap cell of the C3 mesh contributes exactly 5 mm^3 of
accumulated tetrahedron terms (four triangles of 15/2 each, divided by
6). -/
theorem c3_capCell_sum (i j : ℕ) (hj : j < 40) :
    ((capCell i j).map c3term).sum = 5 := by
  unfold capCell
  simp only [List.map_cons, List.map_nil, List.sum_cons, List.sum_nil, c3term_mk]
  rw [c3_pos_top i j (by omega), c3_pos_top (i+1) j (by omega),
    c3_pos_top (i+1) (j+1) (by omega), c3_pos_top i (j+1) (by omega),
    c3_pos_bot i j (by omega), c3_pos_bot (i+1) (j+1) (by omega),
    c3_pos_bot (i+1) j (by omega), c3_pos_bot i (j+1) (by omega)]
  have h1 : tetraTerm (c3x i, c3y j, 3) (c3x (i+1), c3y j, 3)
      (c3x (i+1), c3y (j+1), 3) = 15 / 2 := by
    unfold tetraTerm
    dsimp only
    unfold c3x c3y
    push_cast
    ring
  have h2 : tetraTerm (c3x i, c3y j, 3) (c3x (i+1), c3y (j+1), 3)
      (c3x i, c3y (j+1), 3) = 15 / 2 := by
    unfold tetraTerm
    dsimp only
    unfold c3x c3y
    push_cast
    ring
  have h3 : tetraTerm (c3x i, c3y j, -3) (c3x (i+1), c3y (j+1), -3)
      (c3x (i+1), c3y j, -3) = 15 / 2 := by
    unfold tetraTerm
    dsimp only
    unfold c3x c3y
    push_cast
    ring
  have h4 : tetraTerm (c3x i, c3y j, -3) (c3x i, c3y (j+1), -3)
      (c3x (i+1), c3y (j+1), -3) = 15 / 2 := by
    unfold tetraTerm
    dsimp only
    unfold c3x c3y
    push_cast
    ring
  rw [h1, h2, h3, h4, abs_of_nonneg (by norm_num : (0:ℝ) ≤ 15 / 2)]
  norm_num

/-- Helper: each left/right wall strip of the C3 mesh contributes exactly
200 mm^3 of accumulated tetrahedron terms (four triangles of 300 each,
divided by 6). -/
theorem c3_wallLR_sum (i : ℕ) :
    ((wallLRStrip i).map c3term).sum = 200 := by
  unfold wallLRStrip
  simp only [List.map_cons, List.map_nil, List.sum_cons, List.sum_nil, c3term_mk]
  rw [c3_pos_top i 0 (by omega), c3_pos_bot i 0 (by omega),
    c3_pos_bot (i+1) 0 (by omega), c3_pos_top (i+1) 0 (by omega),
    c3_pos_top i widthSegments (by norm_num [widthSegments]),
    c3_pos_top (i+1) widthSegments (by norm_num [widthSegments]),
    c3_pos_bot (i+1) widthSegments (by norm_num [widthSegments]),
    c3_pos_bot i widthSegments (by norm_num [widthSegments])]
  have h1 : tetraTerm (c3x i, c3y 0, 3) (c3x i, c3y 0, -3)
      (c3x (i+1), c3y 0, -3) = 300 := by
    unfold tetraTerm
    dsimp only
    unfold c3x c3y
    push_cast
    ring
  have h2 : tetraTerm (c3x i, c3y 0, 3) (c3x (i+1), c3y 0, -3)
      (c3x (i+1), c3y 0, 3) = 300 := by
    unfold tetraTerm
    dsimp only
    unfold c3x c3y
    push_cast
    ring
  have h3 : tetraTerm (c3x i, c3y widthSegments, 3) (c3x (i+1), c3y widthSegments, 3)
      (c3x (i+1), c3y widthSegments, -3) = 300 := by
    unfold tetraTerm
    dsimp only
    unfold c3x c3y widthSegments
    push_cast
    ring
  have h4 : tetraTerm (c3x i, c3y widthSegments, 3) (c3x (i+1), c3y widthSegments, -3)
      (c3x i, c3y widthSegments, -3) = 300 := by
    unfold tetraTerm
    dsimp only
    unfold c3x c3y widthSegments
    push_cast
    ring
  rw [h1, h2, h3, h4, abs_of_nonneg (by norm_num : (0:ℝ) ≤ 300)]
  norm_num

/-- Helper: each front/back wall cell of the C3 mesh contributes exactly
300 mm^3 of accumulated tetrahedron terms (four triangles of 450 each,
divided by 6). -/
theorem c3_wallFB_sum (j : ℕ) (hj : j < 40) :
    ((wallFBCell j).map c3term).sum = 300 := by
  unfold wallFBCell frontCell backCell
  simp only [List.append_eq, List.cons_append, List.nil_append,
    List.map_cons, List.map_nil, List.sum_cons, List.sum_nil, c3term_mk]
  rw [c3_pos_top 0 j (by omega), c3_pos_top 0 (j+1) (by omega),
    c3_pos_bot 0 (j+1) (by omega), c3_pos_bot 0 j (by omega),
    c3_pos_top segments j (by omega), c3_pos_bot segments j (by omega),
    c3_pos_bot segments (j+1) (by omega), c3_pos_top segments (j+1) (by omega)]
  have h1 : tetraTerm (c3x 0, c3y j, 3) (c3x 0, c3y (j+1), 3)
      (c3x 0, c3y (j+1), -3) = 450 := by
    unfold tetraTerm
    dsimp only
    unfold c3x c3y
    push_cast
    ring
  have h2 : tetraTerm (c3x 0, c3y j, 3) (c3x 0, c3y (j+1), -3)
      (c3x 0, c3y j, -3) = 450 := by
    unfold tetraTerm
    dsimp only
    unfold c3x c3y
    push_cast
    ring
  have h3 : tetraTerm (c3x segments, c3y j, 3) (c3x segments, c3y j, -3)
      (c3x segments, c3y (j+1), -3) = 450 := by
    unfold tetraTerm
    dsimp only
    unfold c3x c3y segments
    push_cast
    ring
  have h4 : tetraTerm (c3x segments, c3y j, 3) (c3x segments, c3y (j+1), -3)
      (c3x segments, c3y (j+1), 3) = 450 := by
    unfold tetraTerm
    dsimp only
    unfold c3x c3y segments
    push_cast
    ring
  rw [h1, h2, h3, h4, abs_of_nonneg (by norm_num : (0:ℝ) ≤ 450)]
  norm_num

/-- Helper: each cap strip of the C3 mesh contributes 200. -/
theorem c3_capStrip_sum (i : ℕ) :
    ((capStrip i).map c3term).sum = 200 := by
  unfold capStrip widthSegments
  rw [sum_map_flatMap,
    sum_map_const_of _ _ 5 (fun j hj => c3_capCell_sum i j (List.mem_range.mp hj))]
  simp only [List.length_range, Nat.cast_ofNat]
  norm_num

/-- C3: the generated mesh of the concrete scenario (length 100, width 60,
thickness 6, rectangular, uniform edge thickness 6, straight profile, edge
depth 10, no bow, no custom curve) has a tetrahedron-sum volume statistic of
exactly 36 cubic centimeters. -/
theorem c3_volume_exact : ribVolume c3params none = 36 := by
  unfold ribVolume meshVolume
  show |List.foldl (fun acc tri => acc + c3term tri) 0 ribIndices| / 1000 = 36
  rw [foldl_add_eq_sum]
  unfold ribIndices
  rw [List.map_append, List.map_append, List.sum_append, List.sum_append]
  unfold capTris wallTrisLR wallTrisFB segments widthSegments
  rw [sum_map_flatMap, sum_map_flatMap, sum_map_flatMap,
    sum_map_const_of _ _ 200 (fun i _ => c3_capStrip_sum i),
    sum_map_const_of _ _ 200 (fun i _ => c3_wallLR_sum i),
    sum_map_const_of _ _ 300 (fun j hj => c3_wallFB_sum j (List.mem_range.mp hj))]
  simp only [List.length_range, Nat.cast_ofNat]
  rw [abs_of_nonneg (by norm_num : (0:ℝ) ≤ 0 + ((60:ℝ) * 200 + 60 * 200 + 40 * 300))]
  norm_num

/-- Helper: edge membership spelt out as a proposition. -/
theorem triHasEdge_iff (a b p q r : ℕ) : triHasEdge a b (p, q, r) = true ↔
    (a = p ∧ b = q ∨ a = q ∧ b = p) ∨ (a = q ∧ b = r ∨ a = r ∧ b = q) ∨
    (a = p ∧ b = r ∨ a = r ∧ b = p) := by
  simp only [triHasEdge, Bool.or_eq_true, Bool.and_eq_true, beq_iff_eq]
  tauto

/-- Helper: edge membership is symmetric in the two endpoints. -/
theorem triHasEdge_symm (a b : ℕ) (t : ℕ × ℕ × ℕ) :
    triHasEdge a b t = triHasEdge b a t := by
  rcases t with ⟨p, q, r⟩
  rw [Bool.eq_iff_iff]
  simp only [triHasEdge, Bool.or_eq_true, Bool.and_eq_true, beq_iff_eq]
  tauto

/-- Helper: the endpoints of a contained edge are vertices of the
triangle. -/
theorem triHasEdge_vertex {a b p q r : ℕ} (h : triHasEdge a b (p, q, r) = true) :
    (a = p ∨ a = q ∨ a = r) ∧ (b = p ∨ b = q ∨ b = r) := by
  simp only [triHasEdge, Bool.or_eq_true, Bool.and_eq_true, beq_iff_eq] at h
  tauto

/-- Helper: the edge-count is symmetric in the two endpoints. -/
theorem countEdge_symm (a b : ℕ) (l : List (ℕ × ℕ × ℕ)) :
    countEdge a b l = countEdge b a l := by
  unfold countEdge
  congr 1
  funext t
  exact triHasEdge_symm a b t

/-- Helper: the row of a top vertex. -/
theorem rowOf_topIdx (a b : ℕ) (hb : b ≤ 40) : rowOf (topIdx a b) = a :=
  topIdx_decode_i a b hb

/-- Helper: the row of a bottom vertex. -/
theorem rowOf_botIdx (a b : ℕ) (hb : b ≤ 40) : rowOf (botIdx a b) = a :=
  botIdx_decode_i a b hb

/-- Helper: shifting a vertex index by 82 rows it down by one strip per
unit. -/
theorem rowOf_shift (k m : ℕ) : rowOf (k + 82 * m) = rowOf k + m := by
  unfold rowOf widthSegments
  omega

/-- Helper: edge counts add over list concatenation. -/
theorem countEdge_append (a b : ℕ) (l1 l2 : List (ℕ × ℕ × ℕ)) :
    countEdge a b (l1 ++ l2) = countEdge a b l1 + countEdge a b l2 :=
  List.countP_append _ _ _

/-- Helper: the edge count over a range flatMap is the sum of the per-index
counts. -/
theorem countEdge_flatMap_range (a b : ℕ) (g : ℕ → List (ℕ × ℕ × ℕ)) (n : ℕ) :
    countEdge a b ((List.range n).flatMap g) =
      ∑ i ∈ Finset.range n, countEdge a b (g i) := by
  induction n with
  | zero => simp [countEdge]
  | succ n ih =>
    rw [List.range_succ, List.flatMap_append, countEdge_append, ih,
      Finset.sum_range_succ]
    simp [countEdge]

/-- Helper: a list none of whose triangles contains the edge counts it
zero times. -/
theorem countEdge_eq_zero (a b : ℕ) (l : List (ℕ × ℕ × ℕ))
    (h : ∀ t ∈ l, triHasEdge a b t = false) : countEdge a b l = 0 :=
  List.countP_eq_zero.mpr (fun t ht => by simp [h t ht])

/-- Helper: every vertex of a cap-strip triangle lies in grid row i or
i + 1. -/
theorem capStrip_vertex_rows {i : ℕ} {t : ℕ × ℕ × ℕ} (ht : t ∈ capStrip i)
    {v : ℕ} (hv : v = t.1 ∨ v = t.2.1 ∨ v = t.2.2) :
    rowOf v = i ∨ rowOf v = i + 1 := by
  unfold capStrip capCell at ht
  simp only [List.mem_flatMap, List.mem_range, List.mem_cons,
    List.not_mem_nil, or_false] at ht
  obtain ⟨j, hj, hcase⟩ := ht
  have hwS : widthSegments = 40 := rfl
  rw [hwS] at hj
  rcases hcase with h | h | h | h <;> subst h <;>
    rcases hv with h | h | h <;> subst h <;>
    first
      | exact Or.inl (rowOf_topIdx _ _ (by omega))
      | exact Or.inr (rowOf_topIdx _ _ (by omega))
      | exact Or.inl (rowOf_botIdx _ _ (by omega))
      | exact Or.inr (rowOf_botIdx _ _ (by omega))

/-- Helper: every vertex of a left/right wall-strip triangle lies in grid
row i or i + 1. -/
theorem wallLRStrip_vertex_rows {i : ℕ} {t : ℕ × ℕ × ℕ} (ht : t ∈ wallLRStrip i)
    {v : ℕ} (hv : v = t.1 ∨ v = t.2.1 ∨ v = t.2.2) :
    rowOf v = i ∨ rowOf v = i + 1 := by
  unfold wallLRStrip at ht
  simp only [List.mem_cons, List.not_mem_nil, or_false] at ht
  rcases ht with h | h | h | h <;> subst h <;>
    rcases hv with h | h | h <;> subst h <;>
    first
      | exact Or.inl (rowOf_topIdx _ _ (by decide))
      | exact Or.inr (rowOf_topIdx _ _ (by decide))
      | exact Or.inl (rowOf_botIdx _ _ (by decide))
      | exact Or.inr (rowOf_botIdx _ _ (by decide))

/-- Helper: every vertex of a front-wall triangle lies in grid row 0. -/
theorem frontCell_vertex_rows {j : ℕ} (hj : j < 40) {t : ℕ × ℕ × ℕ}
    (ht : t ∈ frontCell j) {v : ℕ} (hv : v = t.1 ∨ v = t.2.1 ∨ v = t.2.2) :
    rowOf v = 0 := by
  unfold frontCell at ht
  simp only [List.mem_cons, List.not_mem_nil, or_false] at ht
  rcases ht with h | h <;> subst h <;>
    rcases hv with h | h | h <;> subst h <;>
    first
      | exact rowOf_topIdx _ _ (by omega)
      | exact rowOf_botIdx _ _ (by omega)

/-- Helper: every vertex of a back-wall triangle lies in grid row 60. -/
theorem backCell_vertex_rows {j : ℕ} (hj : j < 40) {t : ℕ × ℕ × ℕ}
    (ht : t ∈ backCell j) {v : ℕ} (hv : v = t.1 ∨ v = t.2.1 ∨ v = t.2.2) :
    rowOf v = segments := by
  unfold backCell at ht
  simp only [List.mem_cons, List.not_mem_nil, or_false] at ht
  rcases ht with h | h <;> subst h <;>
    rcases hv with h | h | h <;> subst h <;>
    first
      | exact rowOf_topIdx _ _ (by omega)
      | exact rowOf_botIdx _ _ (by omega)

/-- Helper: composing two index shifts adds the offsets. -/
theorem shiftTri_shiftTri (d1 d2 : ℕ) (t : ℕ × ℕ × ℕ) :
    shiftTri d1 (shiftTri d2 t) = shiftTri (d2 + d1) t := by
  rcases t with ⟨p, q, r⟩
  simp only [shiftTri, Prod.mk.injEq]
  omega

/-- Helper: cap strip k + i is cap strip k shifted by 82 i. -/
theorem capStrip_shift_add (k i : ℕ) :
    capStrip (k + i) = (capStrip k).map (shiftTri (82 * i)) := by
  unfold capStrip
  rw [List.map_flatMap]
  congr 1
  funext j
  unfold capCell
  simp only [List.map_cons, List.map_nil, shiftTri, List.cons.injEq,
    Prod.mk.injEq, and_true]
  unfold botIdx topIdx widthSegments
  omega

/-- Helper: cap strip i is cap strip 0 shifted by 82 i. -/
theorem capStrip_shift (i : ℕ) :
    capStrip i = (capStrip 0).map (shiftTri (82 * i)) := by
  have h := capStrip_shift_add 0 i
  rwa [Nat.zero_add] at h

/-- Helper: left/right wall strip k + i is strip k shifted by 82 i. -/
theorem wallLRStrip_shift_add (k i : ℕ) :
    wallLRStrip (k + i) = (wallLRStrip k).map (shiftTri (82 * i)) := by
  unfold wallLRStrip
  simp only [List.map_cons, List.map_nil, shiftTri, List.cons.injEq,
    Prod.mk.injEq, and_true]
  unfold botIdx topIdx widthSegments
  omega

/-- Helper: left/right wall strip i is strip 0 shifted by 82 i. -/
theorem wallLRStrip_shift (i : ℕ) :
    wallLRStrip i = (wallLRStrip 0).map (shiftTri (82 * i)) := by
  have h := wallLRStrip_shift_add 0 i
  rwa [Nat.zero_add] at h

/-- Helper: edge membership is invariant under a common index shift. -/
theorem triHasEdge_shift (a b d : ℕ) (t : ℕ × ℕ × ℕ) :
    triHasEdge (a + d) (b + d) (shiftTri d t) = triHasEdge a b t := by
  rcases t with ⟨p, q, r⟩
  show triHasEdge (a + d) (b + d) (p + d, q + d, r + d) = triHasEdge a b (p, q, r)
  rw [Bool.eq_iff_iff, triHasEdge_iff, triHasEdge_iff]
  simp only [Nat.add_right_cancel_iff]

/-- Helper: edge counts are invariant under a common index shift. -/
theorem countEdge_shift (a b d : ℕ) (l : List (ℕ × ℕ × ℕ)) :
    countEdge (a + d) (b + d) (l.map (shiftTri d)) = countEdge a b l := by
  unfold countEdge
  rw [List.countP_map]
  exact List.countP_congr (fun t ht => by
    rw [Function.comp_apply, triHasEdge_shift])

/-- Helper: an edge of a shifted triangle is a shifted edge of the
original. -/
theorem triHasEdge_shift_inv {a b d : ℕ} {t : ℕ × ℕ × ℕ}
    (h : triHasEdge a b (shiftTri d t) = true) :
    ∃ a0 b0, a = a0 + d ∧ b = b0 + d ∧ triHasEdge a0 b0 t = true := by
  rcases t with ⟨p, q, r⟩
  simp only [shiftTri, triHasEdge, Bool.or_eq_true, Bool.and_eq_true,
    beq_iff_eq] at h
  rcases h with ((((⟨h1, h2⟩ | ⟨h1, h2⟩) | ⟨h1, h2⟩) | ⟨h1, h2⟩) | ⟨h1, h2⟩) | ⟨h1, h2⟩
  · exact ⟨p, q, h1, h2, by simp [triHasEdge]⟩
  · exact ⟨q, p, h1, h2, by simp [triHasEdge]⟩
  · exact ⟨q, r, h1, h2, by simp [triHasEdge]⟩
  · exact ⟨r, q, h1, h2, by simp [triHasEdge]⟩
  · exact ⟨p, r, h1, h2, by simp [triHasEdge]⟩
  · exact ⟨r, p, h1, h2, by simp [triHasEdge]⟩

set_option maxRecDepth 1000000 in
set_option maxHeartbeats 0 in
/-- Helper (computed): every cross-row edge of the base strip is contained
in exactly two of its triangles. -/
theorem checkCross :
    edgeRowsCheck (fun r1 r2 => !(r1 == r2)) stripCross = true := by decide

set_option maxRecDepth 1000000 in
set_option maxHeartbeats 0 in
/-- Helper (computed): every edge lying inside grid row 1 is contained in
exactly two triangles of the two base strips. -/
theorem checkMid :
    edgeRowsCheck (fun r1 r2 => r1 == 1 && r2 == 1) stripMid = true := by decide

set_option maxRecDepth 1000000 in
set_option maxHeartbeats 0 in
/-- Helper (computed): every edge lying inside grid row 0 is contained in
exactly two triangles of strip 0 plus the front wall. -/
theorem checkFirst :
    edgeRowsCheck (fun r1 r2 => r1 == 0 && r2 == 0) stripFirst = true := by decide

set_option maxRecDepth 1000000 in
set_option maxHeartbeats 0 in
/-- Helper (computed): every edge lying inside grid row 60 is contained in
exactly two triangles of strip 59 plus the back wall. -/
theorem checkLast :
    edgeRowsCheck (fun r1 r2 => r1 == 60 && r2 == 60) stripLast = true := by decide

/-- Helper: the packed code of an edge does not depend on its
orientation. -/
theorem edgeCode_symm (x y : ℕ) : edgeCode x y = edgeCode y x := by
  unfold edgeCode
  split <;> split <;> omega

/-- Helper: packing is injective on vertex indices below 8192. -/
theorem edgeCode_eq_iff {x y a b : ℕ} (hx : x < 8192) (hy : y < 8192)
    (ha : a < 8192) (hb : b < 8192) :
    edgeCode x y = edgeCode a b ↔ (x = a ∧ y = b) ∨ (x = b ∧ y = a) := by
  unfold edgeCode
  split <;> split <;> omega

/-- Helper: an edge contained in a triangle contributes its packed code to
the triangle's code list. -/
theorem triCodes_mem {a b : ℕ} {t : ℕ × ℕ × ℕ} (he : triHasEdge a b t = true) :
    edgeCode a b ∈ triCodes t := by
  obtain ⟨p, q, r⟩ := t
  rw [triHasEdge_iff] at he
  rcases he with (⟨rfl, rfl⟩ | ⟨rfl, rfl⟩) | (⟨rfl, rfl⟩ | ⟨rfl, rfl⟩) |
      (⟨rfl, rfl⟩ | ⟨rfl, rfl⟩) <;> simp only [triCodes]
  · exact List.mem_cons_self _ _
  · rw [edgeCode_symm a b]
    exact List.mem_cons_self _ _
  · exact List.mem_cons_of_mem _ (List.mem_cons_self _ _)
  · rw [edgeCode_symm a b]
    exact List.mem_cons_of_mem _ (List.mem_cons_self _ _)
  · exact List.mem_cons_of_mem _ (List.mem_cons_of_mem _ (List.mem_cons_self _ _))
  · rw [edgeCode_symm a b]
    exact List.mem_cons_of_mem _ (List.mem_cons_of_mem _ (List.mem_cons_self _ _))

/-- Helper: the multiplicity of a value in a three-element list as a sum of
indicators. -/
theorem count_three (c1 c2 c3 c : ℕ) :
    ([c1, c2, c3].count c) =
      (if c1 = c then 1 else 0) + (if c2 = c then 1 else 0) +
        (if c3 = c then 1 else 0) := by
  simp only [List.count_cons, List.count_nil, beq_iff_eq]
  split_ifs <;> omega

/-- Helper: a triangle with distinct in-range vertices contributes exactly
one matching packed code for each edge it contains, and none otherwise. -/
theorem count_triCodes {a b p q r : ℕ} (ha : a < 8192) (hb : b < 8192)
    (hp : p < 8192) (hq : q < 8192) (hr : r < 8192)
    (hpq : ¬ p = q) (hqr : ¬ q = r) (hpr : ¬ p = r) (hab : ¬ a = b) :
    (triCodes (p, q, r)).count (edgeCode a b) =
      (if triHasEdge a b (p, q, r) = true then 1 else 0) := by
  simp only [triCodes]
  rw [count_three]
  by_cases h4 : triHasEdge a b (p, q, r) = true
  · rw [if_pos h4]
    rw [triHasEdge_iff] at h4
    rcases h4 with (⟨h5, h6⟩ | ⟨h5, h6⟩) | (⟨h5, h6⟩ | ⟨h5, h6⟩) |
        (⟨h5, h6⟩ | ⟨h5, h6⟩)
    · rw [if_pos ((edgeCode_eq_iff hp hq ha hb).mpr (Or.inl ⟨h5.symm, h6.symm⟩)),
        if_neg (fun h => absurd ((edgeCode_eq_iff hq hr ha hb).mp h) (by omega)),
        if_neg (fun h => absurd ((edgeCode_eq_iff hp hr ha hb).mp h) (by omega))]
    · rw [if_pos ((edgeCode_eq_iff hp hq ha hb).mpr (Or.inr ⟨h6.symm, h5.symm⟩)),
        if_neg (fun h => absurd ((edgeCode_eq_iff hq hr ha hb).mp h) (by omega)),
        if_neg (fun h => absurd ((edgeCode_eq_iff hp hr ha hb).mp h) (by omega))]
    · rw [if_neg (fun h => absurd ((edgeCode_eq_iff hp hq ha hb).mp h) (by omega)),
        if_pos ((edgeCode_eq_iff hq hr ha hb).mpr (Or.inl ⟨h5.symm, h6.symm⟩)),
        if_neg (fun h => absurd ((edgeCode_eq_iff hp hr ha hb).mp h) (by omega))]
    · rw [if_neg (fun h => absurd ((edgeCode_eq_iff hp hq ha hb).mp h) (by omega)),
        if_pos ((edgeCode_eq_iff hq hr ha hb).mpr (Or.inr ⟨h6.symm, h5.symm⟩)),
        if_neg (fun h => absurd ((edgeCode_eq_iff hp hr ha hb).mp h) (by omega))]
    · rw [if_neg (fun h => absurd ((edgeCode_eq_iff hp hq ha hb).mp h) (by omega)),
        if_neg (fun h => absurd ((edgeCode_eq_iff hq hr ha hb).mp h) (by omega)),
        if_pos ((edgeCode_eq_iff hp hr ha hb).mpr (Or.inl ⟨h5.symm, h6.symm⟩))]
    · rw [if_neg (fun h => absurd ((edgeCode_eq_iff hp hq ha hb).mp h) (by omega)),
        if_neg (fun h => absurd ((edgeCode_eq_iff hq hr ha hb).mp h) (by omega)),
        if_pos ((edgeCode_eq_iff hp hr ha hb).mpr (Or.inr ⟨h6.symm, h5.symm⟩))]
  · rw [if_neg h4]
    rw [if_neg (fun h => h4 ((triHasEdge_iff a b p q r).mpr (by
          rcases (edgeCode_eq_iff hp hq ha hb).mp h with ⟨u, v⟩ | ⟨u, v⟩
          · exact Or.inl (Or.inl ⟨u.symm, v.symm⟩)
          · exact Or.inl (Or.inr ⟨v.symm, u.symm⟩)))),
      if_neg (fun h => h4 ((triHasEdge_iff a b p q r).mpr (by
          rcases (edgeCode_eq_iff hq hr ha hb).mp h with ⟨u, v⟩ | ⟨u, v⟩
          · exact Or.inr (Or.inl (Or.inl ⟨u.symm, v.symm⟩))
          · exact Or.inr (Or.inl (Or.inr ⟨v.symm, u.symm⟩))))),
      if_neg (fun h => h4 ((triHasEdge_iff a b p q r).mpr (by
          rcases (edgeCode_eq_iff hp hr ha hb).mp h with ⟨u, v⟩ | ⟨u, v⟩
          · exact Or.inr (Or.inr (Or.inl ⟨u.symm, v.symm⟩))
          · exact Or.inr (Or.inr (Or.inr ⟨v.symm, u.symm⟩)))))]

/-- Helper: for an edge with distinct in-range endpoints, the number of
matching packed codes over a well-formed triangle list is the triangle
count of the edge. -/
theorem count_flat_eq_countEdge {a b : ℕ} (ha : a < 8192) (hb : b < 8192)
    (hab : ¬ a = b) {l : List (ℕ × ℕ × ℕ)} (hok : triOK l = true) :
    (l.flatMap triCodes).count (edgeCode a b) = countEdge a b l := by
  induction l with
  | nil => rfl
  | cons t l ih =>
      rw [triOK, List.all_cons, Bool.and_eq_true] at hok
      obtain ⟨ht, hl⟩ := hok
      obtain ⟨p, q, r⟩ := t
      simp only [Bool.and_eq_true, decide_eq_true_eq, Bool.not_eq_true',
        beq_eq_false_iff_ne, ne_eq] at ht
      obtain ⟨⟨⟨⟨⟨hp, hq⟩, hr⟩, hpq⟩, hqr⟩, hpr⟩ := ht
      rw [List.flatMap_cons, List.count_append,
        count_triCodes ha hb hp hq hr hpq hqr hpr hab, ih hl]
      unfold countEdge
      rw [List.countP_cons]
      omega

/-- Helper: the endpoints of an edge of a well-formed triangle list are
distinct and in range. -/
theorem triOK_edge {L : List (ℕ × ℕ × ℕ)} (hok : triOK L = true)
    {t : ℕ × ℕ × ℕ} (ht : t ∈ L) {a b : ℕ} (he : triHasEdge a b t = true) :
    a < 8192 ∧ b < 8192 ∧ ¬ a = b := by
  obtain ⟨p, q, r⟩ := t
  rw [triOK, List.all_eq_true] at hok
  have h := hok _ ht
  simp only [Bool.and_eq_true, decide_eq_true_eq, Bool.not_eq_true',
    beq_eq_false_iff_ne, ne_eq] at h
  rw [triHasEdge_iff] at he
  rcases he with (⟨rfl, rfl⟩ | ⟨rfl, rfl⟩) | (⟨rfl, rfl⟩ | ⟨rfl, rfl⟩) |
      (⟨rfl, rfl⟩ | ⟨rfl, rfl⟩) <;> tauto

/-- Helper: in an ascending list that passes the pairing check, every
member occurs exactly twice. -/
theorem pairsOK_count : ∀ {l : List ℕ}, pairsOK l = true →
    l.Pairwise (fun x y => x ≤ y) → ∀ {x : ℕ}, x ∈ l → l.count x = 2
  | [], hp, _, x, hx => absurd hx (List.not_mem_nil x)
  | [_], hp, _, x, hx => by simp [pairsOK] at hp
  | a :: c :: rest, hp, hs, x, hx => by
      rw [pairsOK, Bool.and_eq_true, Bool.and_eq_true, beq_iff_eq] at hp
      obtain ⟨⟨hac, hguard⟩, hrest⟩ := hp
      subst hac
      rw [List.pairwise_cons] at hs
      obtain ⟨h1, hs⟩ := hs
      rw [List.pairwise_cons] at hs
      obtain ⟨h2, hs⟩ := hs
      have hne : ∀ w ∈ rest, ¬ w = a := by
        cases rest with
        | nil => intro w hw; cases hw
        | cons z rest2 =>
            intro w hw
            have hza : ¬ z = a := by
              simpa [headNe] using hguard
            have haz : a ≤ z := h2 z (List.mem_cons_self z rest2)
            rcases List.mem_cons.mp hw with rfl | hw2
            · exact hza
            · have hzw : z ≤ w := (List.pairwise_cons.mp hs).1 w hw2
              omega
      rcases List.mem_cons.mp hx with rfl | hx2
      · rw [List.count_cons_self, List.count_cons_self,
          List.count_eq_zero.mpr (fun h => hne x h rfl)]
      · rcases List.mem_cons.mp hx2 with rfl | hx3
        · rw [List.count_cons_self, List.count_cons_self,
            List.count_eq_zero.mpr (fun h => hne x h rfl)]
        · have hxa : ¬ x = a := hne x hx3
          rw [List.count_cons_of_ne hxa, List.count_cons_of_ne hxa]
          exact pairsOK_count hrest hs hx3

/-- Helper: any contained edge whose rows pass the filter of a successful
check is counted exactly twice. -/
theorem edgeRowsCheck_count (rowsOk : ℕ → ℕ → Bool) (L : List (ℕ × ℕ × ℕ))
    (hcheck : edgeRowsCheck rowsOk L = true)
    (hsymm : ∀ r1 r2, rowsOk r1 r2 = rowsOk r2 r1)
    {a b : ℕ} {t : ℕ × ℕ × ℕ} (ht : t ∈ L) (he : triHasEdge a b t = true)
    (hrows : rowsOk (rowOf a) (rowOf b) = true) :
    countEdge a b L = 2 := by
  rw [edgeRowsCheck, Bool.and_eq_true] at hcheck
  obtain ⟨hpairs, hok⟩ := hcheck
  obtain ⟨ha, hb, hab⟩ := triOK_edge hok ht he
  have hpred : rowsOk (rowOf (edgeCode a b / 8192))
      (rowOf (edgeCode a b % 8192)) = true := by
    by_cases hle : a ≤ b
    · have h1 : edgeCode a b / 8192 = a := by
        unfold edgeCode; rw [if_pos hle]; omega
      have h2 : edgeCode a b % 8192 = b := by
        unfold edgeCode; rw [if_pos hle]; omega
      rw [h1, h2]; exact hrows
    · have h1 : edgeCode a b / 8192 = b := by
        unfold edgeCode; rw [if_neg hle]; omega
      have h2 : edgeCode a b % 8192 = a := by
        unfold edgeCode; rw [if_neg hle]; omega
      rw [h1, h2, hsymm]; exact hrows
  have hmemflat : edgeCode a b ∈ L.flatMap triCodes :=
    List.mem_flatMap.mpr ⟨t, ht, triCodes_mem he⟩
  have hmemfilt : edgeCode a b ∈ (L.flatMap triCodes).filter
      (fun e => rowsOk (rowOf (e / 8192)) (rowOf (e % 8192))) :=
    List.mem_filter.mpr ⟨hmemflat, hpred⟩
  have hmemsort : edgeCode a b ∈ sortedEdges rowsOk L := by
    unfold sortedEdges
    exact (List.mem_insertionSort _).mpr hmemfilt
  have hsorted : (sortedEdges rowsOk L).Pairwise (fun x y => x ≤ y) := by
    unfold sortedEdges
    exact List.sorted_insertionSort _ _
  have hcount2 : (sortedEdges rowsOk L).count (edgeCode a b) = 2 :=
    pairsOK_count hpairs hsorted hmemsort
  have hperm : List.Perm (sortedEdges rowsOk L) ((L.flatMap triCodes).filter
      (fun e => rowsOk (rowOf (e / 8192)) (rowOf (e % 8192)))) :=
    List.perm_insertionSort _ _
  have hfilt : List.count (edgeCode a b)
      (List.filter (fun e => rowsOk (rowOf (e / 8192)) (rowOf (e % 8192)))
        (L.flatMap triCodes)) =
      List.count (edgeCode a b) (L.flatMap triCodes) :=
    List.count_filter (by simpa using hpred)
  rw [hperm.count_eq, hfilt, count_flat_eq_countEdge ha hb hab hok] at hcount2
  exact hcount2

/-- Helper: the cross-row filter is symmetric. -/
theorem rowsOk_cross_symm (r1 r2 : ℕ) : (!(r1 == r2)) = (!(r2 == r1)) := by
  have h : (r1 == r2) = (r2 == r1) := by
    rw [Bool.eq_iff_iff]
    simp only [beq_iff_eq]
    exact eq_comm
  rw [h]

/-- Helper: the fixed-row filter is symmetric. -/
theorem rowsOk_const_symm (c r1 r2 : ℕ) :
    (r1 == c && r2 == c) = (r2 == c && r1 == c) := by
  rw [Bool.eq_iff_iff]
  simp only [Bool.and_eq_true]
  tauto

/-- Helper: distinct rows satisfy the cross-row filter. -/
theorem cross_rows_true {x y : ℕ} (h : x ≠ y) : (!(x == y)) = true := by
  simp only [Bool.not_eq_eq_eq_not, Bool.not_true, beq_eq_false_iff_ne, ne_eq]
  exact h

/-- Helper: equal fixed rows satisfy the fixed-row filter. -/
theorem const_rows_true {c x y : ℕ} (hx : x = c) (hy : y = c) :
    (x == c && y == c) = true := by
  simp only [Bool.and_eq_true, beq_iff_eq]
  exact ⟨hx, hy⟩

/-- Helper: a cap strip contains no edge with an endpoint outside its two
rows. -/
theorem countEdge_capStrip_zero {a b : ℕ} (i : ℕ)
    (h : ¬(rowOf a = i ∨ rowOf a = i + 1) ∨ ¬(rowOf b = i ∨ rowOf b = i + 1)) :
    countEdge a b (capStrip i) = 0 := by
  apply countEdge_eq_zero
  intro t ht
  by_contra hc
  rw [Bool.not_eq_false] at hc
  rcases t with ⟨p, q, r⟩
  obtain ⟨ha, hb⟩ := triHasEdge_vertex hc
  rcases h with h | h
  · exact h (capStrip_vertex_rows ht ha)
  · exact h (capStrip_vertex_rows ht hb)

/-- Helper: a left/right wall strip contains no edge with an endpoint
outside its two rows. -/
theorem countEdge_wallLR_zero {a b : ℕ} (i : ℕ)
    (h : ¬(rowOf a = i ∨ rowOf a = i + 1) ∨ ¬(rowOf b = i ∨ rowOf b = i + 1)) :
    countEdge a b (wallLRStrip i) = 0 := by
  apply countEdge_eq_zero
  intro t ht
  by_contra hc
  rw [Bool.not_eq_false] at hc
  rcases t with ⟨p, q, r⟩
  obtain ⟨ha, hb⟩ := triHasEdge_vertex hc
  rcases h with h | h
  · exact h (wallLRStrip_vertex_rows ht ha)
  · exact h (wallLRStrip_vertex_rows ht hb)

/-- Helper: a front-wall cell contains no edge with an endpoint outside row
0. -/
theorem countEdge_frontCell_zero {a b : ℕ} (j : ℕ) (hj : j < 40)
    (h : ¬(rowOf a = 0) ∨ ¬(rowOf b = 0)) :
    countEdge a b (frontCell j) = 0 := by
  apply countEdge_eq_zero
  intro t ht
  by_contra hc
  rw [Bool.not_eq_false] at hc
  rcases t with ⟨p, q, r⟩
  obtain ⟨ha, hb⟩ := triHasEdge_vertex hc
  rcases h with h | h
  · exact h (frontCell_vertex_rows hj ht ha)
  · exact h (frontCell_vertex_rows hj ht hb)

/-- Helper: a back-wall cell contains no edge with an endpoint outside row
60. -/
theorem countEdge_backCell_zero {a b : ℕ} (j : ℕ) (hj : j < 40)
    (h : ¬(rowOf a = 60) ∨ ¬(rowOf b = 60)) :
    countEdge a b (backCell j) = 0 := by
  apply countEdge_eq_zero
  intro t ht
  by_contra hc
  rw [Bool.not_eq_false] at hc
  rcases t with ⟨p, q, r⟩
  obtain ⟨ha, hb⟩ := triHasEdge_vertex hc
  rcases h with h | h
  · exact h (backCell_vertex_rows hj ht ha)
  · exact h (backCell_vertex_rows hj ht hb)

/-- Helper: the global edge count decomposes into per-strip and per-cell
counts. -/
theorem countEdge_rib_decomp (a b : ℕ) :
    countEdge a b ribIndices =
      (∑ i ∈ Finset.range 60, countEdge a b (capStrip i)) +
      (∑ i ∈ Finset.range 60, countEdge a b (wallLRStrip i)) +
      ∑ j ∈ Finset.range 40,
        (countEdge a b (frontCell j) + countEdge a b (backCell j)) := by
  have hseg : segments = 60 := rfl
  have hwS : widthSegments = 40 := rfl
  have hcell : ∑ j ∈ Finset.range 40, countEdge a b (wallFBCell j) =
      ∑ j ∈ Finset.range 40,
        (countEdge a b (frontCell j) + countEdge a b (backCell j)) :=
    Finset.sum_congr rfl (fun j _ => by unfold wallFBCell; rw [countEdge_append])
  unfold ribIndices capTris wallTrisLR wallTrisFB
  rw [countEdge_append, countEdge_append, hseg, hwS,
    countEdge_flatMap_range, countEdge_flatMap_range, countEdge_flatMap_range,
    hcell]

/-- Helper (case analysis): a cross-row edge of strip i is counted exactly
twice globally. -/
theorem c1_cross {a b : ℕ} {t : ℕ × ℕ × ℕ} {i : ℕ} (hi : i < 60)
    (hstrip : t ∈ capStrip i ∨ t ∈ wallLRStrip i)
    (he : triHasEdge a b t = true) (hrr : rowOf a ≠ rowOf b) :
    countEdge a b ribIndices = 2 := by
  obtain ⟨p, q, r⟩ := t
  obtain ⟨ha, hb⟩ := triHasEdge_vertex he
  have hra : rowOf a = i ∨ rowOf a = i + 1 := by
    rcases hstrip with h | h
    · exact capStrip_vertex_rows h ha
    · exact wallLRStrip_vertex_rows h ha
  have hrb : rowOf b = i ∨ rowOf b = i + 1 := by
    rcases hstrip with h | h
    · exact capStrip_vertex_rows h hb
    · exact wallLRStrip_vertex_rows h hb
  have hcap : ∑ k ∈ Finset.range 60, countEdge a b (capStrip k) =
      countEdge a b (capStrip i) := by
    apply Finset.sum_eq_single_of_mem i (Finset.mem_range.mpr hi)
    intro k hk hne
    exact countEdge_capStrip_zero k (by omega)
  have hlr : ∑ k ∈ Finset.range 60, countEdge a b (wallLRStrip k) =
      countEdge a b (wallLRStrip i) := by
    apply Finset.sum_eq_single_of_mem i (Finset.mem_range.mpr hi)
    intro k hk hne
    exact countEdge_wallLR_zero k (by omega)
  have hfb : ∑ j ∈ Finset.range 40,
      (countEdge a b (frontCell j) + countEdge a b (backCell j)) = 0 := by
    apply Finset.sum_eq_zero
    intro j hj
    rw [countEdge_frontCell_zero j (Finset.mem_range.mp hj) (by omega),
      countEdge_backCell_zero j (Finset.mem_range.mp hj) (by omega)]
    rfl
  have hmem2 : (p, q, r) ∈ stripCross.map (shiftTri (82 * i)) := by
    unfold stripCross
    rw [List.map_append, ← capStrip_shift, ← wallLRStrip_shift]
    exact List.mem_append.mpr hstrip
  obtain ⟨t0, ht0, hteq⟩ := List.mem_map.mp hmem2
  rw [← hteq] at he
  obtain ⟨a0, b0, ha0, hb0, he0⟩ := triHasEdge_shift_inv he
  have hcount : countEdge a b (capStrip i) + countEdge a b (wallLRStrip i) =
      countEdge a0 b0 stripCross := by
    have hx : countEdge a b (stripCross.map (shiftTri (82 * i))) =
        countEdge a0 b0 stripCross := by
      rw [ha0, hb0, countEdge_shift]
    rw [← hx]
    unfold stripCross
    rw [List.map_append, ← capStrip_shift, ← wallLRStrip_shift, countEdge_append]
  have hra0 : rowOf a = rowOf a0 + i := by rw [ha0, rowOf_shift]
  have hrb0 : rowOf b = rowOf b0 + i := by rw [hb0, rowOf_shift]
  have hbase : countEdge a0 b0 stripCross = 2 :=
    edgeRowsCheck_count _ _ checkCross rowsOk_cross_symm ht0 he0
      (cross_rows_true (by omega))
  rw [countEdge_rib_decomp, hcap, hlr, hfb, hcount, hbase]

/-- Helper (case analysis): an edge lying inside an interior grid row is
counted exactly twice globally. -/
theorem c1_mid {a b : ℕ} {t : ℕ × ℕ × ℕ} (i1 : ℕ) (hi1 : i1 + 1 ≤ 59)
    (hstrip : (t ∈ capStrip i1 ∨ t ∈ wallLRStrip i1) ∨
      (t ∈ capStrip (i1 + 1) ∨ t ∈ wallLRStrip (i1 + 1)))
    (he : triHasEdge a b t = true)
    (hra : rowOf a = i1 + 1) (hrb : rowOf b = i1 + 1) :
    countEdge a b ribIndices = 2 := by
  have hcap : ∑ k ∈ Finset.range 60, countEdge a b (capStrip k) =
      countEdge a b (capStrip i1) + countEdge a b (capStrip (i1 + 1)) := by
    have hpair : ∑ x ∈ ({i1, i1 + 1} : Finset ℕ), countEdge a b (capStrip x) =
        countEdge a b (capStrip i1) + countEdge a b (capStrip (i1 + 1)) :=
      Finset.sum_pair (by omega)
    rw [← hpair]
    symm
    apply Finset.sum_subset
    · intro x hx
      simp only [Finset.mem_insert, Finset.mem_singleton] at hx
      exact Finset.mem_range.mpr (by omega)
    · intro x hx hnx
      simp only [Finset.mem_insert, Finset.mem_singleton, not_or] at hnx
      exact countEdge_capStrip_zero x (by omega)
  have hlr : ∑ k ∈ Finset.range 60, countEdge a b (wallLRStrip k) =
      countEdge a b (wallLRStrip i1) + countEdge a b (wallLRStrip (i1 + 1)) := by
    have hpair : ∑ x ∈ ({i1, i1 + 1} : Finset ℕ), countEdge a b (wallLRStrip x) =
        countEdge a b (wallLRStrip i1) + countEdge a b (wallLRStrip (i1 + 1)) :=
      Finset.sum_pair (by omega)
    rw [← hpair]
    symm
    apply Finset.sum_subset
    · intro x hx
      simp only [Finset.mem_insert, Finset.mem_singleton] at hx
      exact Finset.mem_range.mpr (by omega)
    · intro x hx hnx
      simp only [Finset.mem_insert, Finset.mem_singleton, not_or] at hnx
      exact countEdge_wallLR_zero x (by omega)
  have hfb : ∑ j ∈ Finset.range 40,
      (countEdge a b (frontCell j) + countEdge a b (backCell j)) = 0 := by
    apply Finset.sum_eq_zero
    intro j hj
    rw [countEdge_frontCell_zero j (Finset.mem_range.mp hj) (by omega),
      countEdge_backCell_zero j (Finset.mem_range.mp hj) (by omega)]
    rfl
  have hm2 : (capStrip 1).map (shiftTri (82 * i1)) = capStrip (i1 + 1) := by
    have h := capStrip_shift_add 1 i1
    rw [Nat.add_comm 1 i1] at h
    exact h.symm
  have hm2w : (wallLRStrip 1).map (shiftTri (82 * i1)) = wallLRStrip (i1 + 1) := by
    have h := wallLRStrip_shift_add 1 i1
    rw [Nat.add_comm 1 i1] at h
    exact h.symm
  have hmid_map : stripMid.map (shiftTri (82 * i1)) =
      capStrip i1 ++ wallLRStrip i1 ++ capStrip (i1 + 1) ++ wallLRStrip (i1 + 1) := by
    unfold stripMid
    rw [List.map_append, List.map_append, List.map_append,
      ← capStrip_shift, ← wallLRStrip_shift, hm2, hm2w]
  have hmem2 : t ∈ stripMid.map (shiftTri (82 * i1)) := by
    rw [hmid_map]
    simp only [List.mem_append]
    rcases hstrip with hAB | hCD
    · exact Or.inl (Or.inl hAB)
    · rcases hCD with hC | hD
      · exact Or.inl (Or.inr hC)
      · exact Or.inr hD
  obtain ⟨t0, ht0, hteq⟩ := List.mem_map.mp hmem2
  rw [← hteq] at he
  obtain ⟨a0, b0, ha0, hb0, he0⟩ := triHasEdge_shift_inv he
  have hcount : countEdge a b (capStrip i1) + countEdge a b (wallLRStrip i1) +
      countEdge a b (capStrip (i1 + 1)) + countEdge a b (wallLRStrip (i1 + 1)) =
      countEdge a0 b0 stripMid := by
    have hx : countEdge a b (stripMid.map (shiftTri (82 * i1))) =
        countEdge a0 b0 stripMid := by
      rw [ha0, hb0, countEdge_shift]
    rw [← hx, hmid_map, countEdge_append, countEdge_append, countEdge_append]
  have hra0 : rowOf a = rowOf a0 + i1 := by rw [ha0, rowOf_shift]
  have hrb0 : rowOf b = rowOf b0 + i1 := by rw [hb0, rowOf_shift]
  have hbase : countEdge a0 b0 stripMid = 2 :=
    edgeRowsCheck_count _ _ checkMid (rowsOk_const_symm 1) ht0 he0
      (const_rows_true (by omega) (by omega))
  rw [countEdge_rib_decomp, hcap, hlr, hfb]
  omega

/-- Helper (case analysis): an edge lying inside grid row 0 is counted
exactly twice globally. -/
theorem c1_first {a b : ℕ} {t : ℕ × ℕ × ℕ}
    (hstrip : t ∈ stripFirst) (he : triHasEdge a b t = true)
    (hra : rowOf a = 0) (hrb : rowOf b = 0) :
    countEdge a b ribIndices = 2 := by
  have hwS : widthSegments = 40 := rfl
  have hcap : ∑ k ∈ Finset.range 60, countEdge a b (capStrip k) =
      countEdge a b (capStrip 0) := by
    apply Finset.sum_eq_single_of_mem 0 (Finset.mem_range.mpr (by omega))
    intro k hk hne
    exact countEdge_capStrip_zero k (by omega)
  have hlr : ∑ k ∈ Finset.range 60, countEdge a b (wallLRStrip k) =
      countEdge a b (wallLRStrip 0) := by
    apply Finset.sum_eq_single_of_mem 0 (Finset.mem_range.mpr (by omega))
    intro k hk hne
    exact countEdge_wallLR_zero k (by omega)
  have hfb : ∑ j ∈ Finset.range 40,
      (countEdge a b (frontCell j) + countEdge a b (backCell j)) =
      countEdge a b frontWall := by
    have hfw : countEdge a b frontWall =
        ∑ j ∈ Finset.range 40, countEdge a b (frontCell j) := by
      unfold frontWall
      rw [hwS, countEdge_flatMap_range]
    rw [hfw]
    apply Finset.sum_congr rfl
    intro j hj
    rw [countEdge_backCell_zero j (Finset.mem_range.mp hj) (by omega)]
    omega
  have hbase : countEdge a b stripFirst = 2 :=
    edgeRowsCheck_count _ _ checkFirst (rowsOk_const_symm 0) hstrip he
      (const_rows_true hra hrb)
  have hsplit : countEdge a b stripFirst =
      countEdge a b (capStrip 0) + countEdge a b (wallLRStrip 0) +
      countEdge a b frontWall := by
    unfold stripFirst
    rw [countEdge_append, countEdge_append]
  rw [countEdge_rib_decomp, hcap, hlr, hfb]
  omega

/-- Helper (case analysis): an edge lying inside grid row 60 is counted
exactly twice globally. -/
theorem c1_last {a b : ℕ} {t : ℕ × ℕ × ℕ}
    (hstrip : t ∈ stripLast) (he : triHasEdge a b t = true)
    (hra : rowOf a = 60) (hrb : rowOf b = 60) :
    countEdge a b ribIndices = 2 := by
  have hwS : widthSegments = 40 := rfl
  have h59 : segments - 1 = 59 := rfl
  have hcap : ∑ k ∈ Finset.range 60, countEdge a b (capStrip k) =
      countEdge a b (capStrip 59) := by
    apply Finset.sum_eq_single_of_mem 59 (Finset.mem_range.mpr (by omega))
    intro k hk hne
    have hk2 := Finset.mem_range.mp hk
    exact countEdge_capStrip_zero k (by omega)
  have hlr : ∑ k ∈ Finset.range 60, countEdge a b (wallLRStrip k) =
      countEdge a b (wallLRStrip 59) := by
    apply Finset.sum_eq_single_of_mem 59 (Finset.mem_range.mpr (by omega))
    intro k hk hne
    have hk2 := Finset.mem_range.mp hk
    exact countEdge_wallLR_zero k (by omega)
  have hfb : ∑ j ∈ Finset.range 40,
      (countEdge a b (frontCell j) + countEdge a b (backCell j)) =
      countEdge a b backWall := by
    have hbw : countEdge a b backWall =
        ∑ j ∈ Finset.range 40, countEdge a b (backCell j) := by
      unfold backWall
      rw [hwS, countEdge_flatMap_range]
    rw [hbw]
    apply Finset.sum_congr rfl
    intro j hj
    rw [countEdge_frontCell_zero j (Finset.mem_range.mp hj) (by omega)]
    omega
  have hbase : countEdge a b stripLast = 2 :=
    edgeRowsCheck_count _ _ checkLast (rowsOk_const_symm 60) hstrip he
      (const_rows_true hra hrb)
  have hsplit : countEdge a b stripLast =
      countEdge a b (capStrip 59) + countEdge a b (wallLRStrip 59) +
      countEdge a b backWall := by
    unfold stripLast
    rw [h59, countEdge_append, countEdge_append]
  rw [countEdge_rib_decomp, hcap, hlr, hfb]
  omega

/-- C1: the triangle index buffer of the generated mesh is a closed
2-manifold: every undirected edge occurring in the triangle list is shared
by exactly two triangles.  The index buffer is independent of the parameter
record (the resolution constants fix the topology), so this holds for every
valid RibParameters record. -/
theorem c1_manifold_closure (a b : ℕ)
    (hocc : ∃ t ∈ ribIndices, triHasEdge a b t = true) :
    countEdge a b ribIndices = 2 := by
  obtain ⟨t, ht, he⟩ := hocc
  have hseg : segments = 60 := rfl
  have hwS : widthSegments = 40 := rfl
  have hmem : (∃ i, i < 60 ∧ t ∈ capStrip i) ∨ (∃ i, i < 60 ∧ t ∈ wallLRStrip i) ∨
      (∃ j, j < 40 ∧ t ∈ frontCell j) ∨ (∃ j, j < 40 ∧ t ∈ backCell j) := by
    unfold ribIndices capTris wallTrisLR wallTrisFB wallFBCell at ht
    rw [hseg, hwS] at ht
    simp only [List.mem_append, List.mem_flatMap, List.mem_range] at ht
    rcases ht with (⟨i, hi, hm⟩ | ⟨i, hi, hm⟩) | ⟨j, hj, hm | hm⟩
    · exact Or.inl ⟨i, hi, hm⟩
    · exact Or.inr (Or.inl ⟨i, hi, hm⟩)
    · exact Or.inr (Or.inr (Or.inl ⟨j, hj, hm⟩))
    · exact Or.inr (Or.inr (Or.inr ⟨j, hj, hm⟩))
  obtain ⟨p, q, r⟩ := t
  obtain ⟨ha, hb⟩ := triHasEdge_vertex he
  by_cases hrr : rowOf a = rowOf b
  · rcases hmem with ⟨i, hi, hm⟩ | ⟨i, hi, hm⟩ | ⟨j, hj, hm⟩ | ⟨j, hj, hm⟩
    · have hra := capStrip_vertex_rows hm ha
      have hrb := capStrip_vertex_rows hm hb
      rcases hra with h0 | h0
      · by_cases hz : i = 0
        · subst hz
          exact c1_first
            (by unfold stripFirst
                simp only [List.mem_append]
                exact Or.inl (Or.inl hm))
            he (by omega) (by omega)
        · obtain ⟨i2, rfl⟩ : ∃ i2, i = i2 + 1 := ⟨i - 1, by omega⟩
          exact c1_mid i2 (by omega) (Or.inr (Or.inl hm)) he
            (by omega) (by omega)
      · by_cases hl : i = 59
        · subst hl
          exact c1_last
            (by unfold stripLast
                have h59 : segments - 1 = 59 := rfl
                rw [h59]
                simp only [List.mem_append]
                exact Or.inl (Or.inl hm))
            he (by omega) (by omega)
        · exact c1_mid i (by omega) (Or.inl (Or.inl hm)) he
            (by omega) (by omega)
    · have hra := wallLRStrip_vertex_rows hm ha
      have hrb := wallLRStrip_vertex_rows hm hb
      rcases hra with h0 | h0
      · by_cases hz : i = 0
        · subst hz
          exact c1_first
            (by unfold stripFirst
                simp only [List.mem_append]
                exact Or.inl (Or.inr hm))
            he (by omega) (by omega)
        · obtain ⟨i2, rfl⟩ : ∃ i2, i = i2 + 1 := ⟨i - 1, by omega⟩
          exact c1_mid i2 (by omega) (Or.inr (Or.inr hm)) he
            (by omega) (by omega)
      · by_cases hl : i = 59
        · subst hl
          exact c1_last
            (by unfold stripLast
                have h59 : segments - 1 = 59 := rfl
                rw [h59]
                simp only [List.mem_append]
                exact Or.inl (Or.inr hm))
            he (by omega) (by omega)
        · exact c1_mid i (by omega) (Or.inl (Or.inr hm)) he
            (by omega) (by omega)
    · have hra := frontCell_vertex_rows hj hm ha
      have hrb := frontCell_vertex_rows hj hm hb
      refine c1_first ?_ he hra hrb
      unfold stripFirst frontWall
      rw [hwS]
      simp only [List.mem_append, List.mem_flatMap, List.mem_range]
      exact Or.inr ⟨j, hj, hm⟩
    · have hra := backCell_vertex_rows hj hm ha
      have hrb := backCell_vertex_rows hj hm hb
      refine c1_last ?_ he hra hrb
      unfold stripLast backWall
      rw [hwS]
      simp only [List.mem_append, List.mem_flatMap, List.mem_range]
      exact Or.inr ⟨j, hj, hm⟩
  · rcases hmem with ⟨i, hi, hm⟩ | ⟨i, hi, hm⟩ | ⟨j, hj, hm⟩ | ⟨j, hj, hm⟩
    · exact c1_cross hi (Or.inl hm) he hrr
    · exact c1_cross hi (Or.inr hm) he hrr
    · exact absurd
        ((frontCell_vertex_rows hj hm ha).trans
          (frontCell_vertex_rows hj hm hb).symm) hrr
    · exact absurd
        ((backCell_vertex_rows hj hm ha).trans
          (backCell_vertex_rows hj hm hb).symm) hrr

/-- C1 witness: the edge between the top vertices of grid points (0,0) and
(1,0) (vertex indices 0 and 82) occurs in the mesh and is shared by exactly
two triangles. -/
theorem c1_witness : countEdge 0 82 ribIndices = 2 :=
  c1_manifold_closure 0 82
    ⟨(topIdx 0 0, topIdx 1 0, topIdx 1 1), by decide, by decide⟩

end PotteryRib

